import Mathlib

set_option autoImplicit false

/-
  Verification of the spreadsheet formula resolution engine embedded in
  `core/parser.py` (`_resolve_xlsm_formulas` and its nested helpers).

  The Python code recognizes formula shapes with `re.match` over strings and
  resolves them against a cell-value dictionary (`cell_values`, the CellStore).
  We shallow-embed that code here:

  * a small backtracking pattern engine (`Pat`, `matchPat`, `rmatch`) models
    Python's `re.match` for exactly the constructs the source regexes use
    (literals, case-insensitive literals, character classes, greedy `*`/`+`,
    lazy `+?`, optional groups, alternation, capture groups, `$`);
  * each regex of the source is transcribed into a `Pat` value;
  * every nested helper of `_resolve_xlsm_formulas` becomes a Lean function of
    the same name (minus the leading underscore);
  * Python exceptions that can escape the evaluator are made explicit in an
    `Except` result (`ZeroDivisionError` from the trailing `/<divisor>` scale);
  * Python numbers: `int` is modelled as `Int`; `float` is modelled as an exact
    rational (`Val.float : ℚ → Val`).  IEEE rounding and Python's float `repr`
    are not modelled; no theorem below depends on the string form or rounding
    of a float value.
-/

namespace CreditPaper

/-! ## Python string helpers -/

/-- Python whitespace for `str.strip()` and `\s` (ASCII part). -/
def pyWsB (c : Char) : Bool :=
  c == ' ' || c == '\t' || c == '\n' || c == '\r' || c == '\x0b' || c == '\x0c'

/-- Drop leading characters satisfying `p`, then trailing ones. -/
def stripWithL (p : Char → Bool) (l : List Char) : List Char :=
  ((l.dropWhile p).reverse.dropWhile p).reverse

/-- Python `str.strip()` (no argument: whitespace). -/
def pyStrip (s : String) : String := ⟨stripWithL pyWsB s.data⟩

/-- Python `str.strip(c)` for a single character `c`. -/
def stripChars (c : Char) (s : String) : String := ⟨stripWithL (fun d => d == c) s.data⟩

/-- Python `str.replace('$', '')`. -/
def removeDollars (s : String) : String := ⟨s.data.filter (fun c => !(c == '$'))⟩

/-- Python `str.replace("'", '')`. -/
def removeQuotes (s : String) : String := ⟨s.data.filter (fun c => !(c == '\''))⟩

/-- Python `str.upper()` (ASCII case mapping, as used on formula text). -/
def upperStr (s : String) : String := ⟨s.data.map Char.toUpper⟩

/-- Python `s.startswith(pre)` (list-based, so kernel-reducible). -/
def strStarts (s pre : String) : Bool := pre.data.isPrefixOf s.data

/-- Python `s.endswith(suf)`. -/
def strEnds (s suf : String) : Bool := suf.data.isSuffixOf s.data

/-- Python `s[n:]` (drop `n` characters). -/
def strDrop (s : String) (n : Nat) : String := ⟨s.data.drop n⟩

/-- Python `len(s)` (character count). -/
def strLen (s : String) : Nat := s.data.length

/-- Python `s.split(ch)` for a single-character separator: every occurrence
splits, empty parts kept, never an empty list. -/
def splitOnChar (ch : Char) : List Char → List (List Char)
  | [] => [[]]
  | c :: rest =>
    match splitOnChar ch rest with
    | [] => [[]]
    | h :: t => if c == ch then [] :: h :: t else (c :: h) :: t

/-- Python `"".join(parts)`. -/
def joinParts (l : List String) : String := l.foldl (fun a b => a ++ b) ""

/-- Is `needle` a contiguous sublist of `hay`?  Models Python `in` on strings. -/
def subList (needle : List Char) : List Char → Bool
  | [] => needle.isEmpty
  | c :: rest => needle.isPrefixOf (c :: rest) || subList needle rest

/-- Python `needle in hay` for strings. -/
def hasSub (hay needle : String) : Bool := subList needle.data hay.data

/-- Python `int(<digit string>)` on a list of decimal digits. -/
def digitsToNat (l : List Char) : Nat := l.foldl (fun a c => a * 10 + (c.toNat - 48)) 0

/-- Python `int(s)` for an optional-sign decimal literal (used by
`_resolve_ref_or_value`; underscores in literals are not modelled). -/
def pyInt (s : String) : Option Int :=
  let l := stripWithL pyWsB s.data
  match l with
  | '-' :: rest => if rest ≠ [] ∧ rest.all Char.isDigit then some (-(digitsToNat rest : Int)) else none
  | '+' :: rest => if rest ≠ [] ∧ rest.all Char.isDigit then some ((digitsToNat rest : Int)) else none
  | rest => if rest ≠ [] ∧ rest.all Char.isDigit then some ((digitsToNat rest : Int)) else none

/-- Python `float(s)` for plain decimal literals `[+-]?d*.d*` with at least one
digit (exponent forms, `inf` and `nan` are not modelled; no claim depends on
them). -/
def pyFloat (s : String) : Option ℚ :=
  let l := stripWithL pyWsB s.data
  let core : List Char → Option ℚ := fun l =>
    match l.span Char.isDigit with
    | (intPart, rest) =>
      match rest with
      | [] => if intPart ≠ [] then some ((digitsToNat intPart : ℚ)) else none
      | '.' :: frac =>
        if frac.all Char.isDigit ∧ (intPart ≠ [] ∨ frac ≠ []) then
          some ((digitsToNat intPart : ℚ) + (digitsToNat frac : ℚ) / ((10 : ℚ) ^ frac.length))
        else none
      | _ => none
  match l with
  | '-' :: rest => (core rest).map (fun q => -q)
  | '+' :: rest => core rest
  | rest => core rest

/-! ## The pattern engine: a model of `re.match` for the source's regexes -/

/-- Capture environment: group number to captured character list. -/
def Caps : Type := Nat → Option (List Char)

def Caps.empty : Caps := fun _ => none

def Caps.set (cs : Caps) (n : Nat) (v : List Char) : Caps :=
  fun m => if m = n then some v else cs m

/-- Regex fragments used by the source (Python `re` semantics). -/
inductive Pat where
  | lit (l : List Char)             -- literal text, case-sensitive
  | litCI (l : List Char)           -- literal text under re.IGNORECASE
  | cls (p : Char → Bool)           -- single-character class
  | seq (a b : Pat)                 -- concatenation
  | alt (a b : Pat)                 -- ordered alternation  a|b
  | opt (a : Pat)                   -- greedy  (...)?
  | starG (p : Char → Bool)         -- greedy  [class]*
  | plusG (p : Char → Bool)         -- greedy  [class]+
  | plusL (p : Char → Bool)         -- lazy    [class]+?
  | group (n : Nat) (a : Pat)       -- capture group n
  | eps                             -- empty pattern
  | eos                             -- the `$` anchor

/-- ASCII-case-insensitive character comparison (re.IGNORECASE). -/
def charCIeq (a b : Char) : Bool :=
  a == b || (a.isAlpha && b.isAlpha && (a.toLower == b.toLower))

/-- Drop a case-sensitive literal prefix. -/
def dropLit : List Char → List Char → Option (List Char)
  | [], s => some s
  | _ :: _, [] => none
  | a :: l, c :: s => if a == c then dropLit l s else none

/-- Drop a case-insensitive literal prefix. -/
def dropLitCI : List Char → List Char → Option (List Char)
  | [], s => some s
  | _ :: _, [] => none
  | a :: l, c :: s => if charCIeq a c then dropLitCI l s else none

/-- Greedy class star: try the longest run first, backtracking downwards. -/
def starGo (p : Char → Bool) : List Char → (List Char → Option Caps) → Option Caps
  | [], k => k []
  | c :: rest, k =>
    if p c then
      match starGo p rest k with
      | some r => some r
      | none => k (c :: rest)
    else k (c :: rest)

/-- Lazy class star (after one mandatory character): shortest run first. -/
def lazyGo (p : Char → Bool) : List Char → (List Char → Option Caps) → Option Caps
  | [], k => k []
  | c :: rest, k =>
    match k (c :: rest) with
    | some r => some r
    | none => if p c then lazyGo p rest k else none

/-- The backtracking matcher, continuation-passing.  `k` receives the
remaining suffix and the capture environment. -/
def matchPat : Pat → List Char → Caps → (List Char → Caps → Option Caps) → Option Caps
  | .lit l, s, cs, k =>
    match dropLit l s with
    | some r => k r cs
    | none => none
  | .litCI l, s, cs, k =>
    match dropLitCI l s with
    | some r => k r cs
    | none => none
  | .cls _, [], _, _ => none
  | .cls p, c :: rest, cs, k => if p c then k rest cs else none
  | .seq a b, s, cs, k => matchPat a s cs (fun r cs' => matchPat b r cs' k)
  | .alt a b, s, cs, k =>
    match matchPat a s cs k with
    | some r => some r
    | none => matchPat b s cs k
  | .opt a, s, cs, k =>
    match matchPat a s cs k with
    | some r => some r
    | none => k s cs
  | .starG p, s, cs, k => starGo p s (fun r => k r cs)
  | .plusG _, [], _, _ => none
  | .plusG p, c :: rest, cs, k => if p c then starGo p rest (fun r => k r cs) else none
  | .plusL _, [], _, _ => none
  | .plusL p, c :: rest, cs, k => if p c then lazyGo p rest (fun r => k r cs) else none
  | .group n a, s, cs, k =>
    matchPat a s cs (fun r cs' => k r (cs'.set n (s.take (s.length - r.length))))
  | .eps, s, cs, k => k s cs
  | .eos, [], cs, k => k [] cs
  | .eos, _ :: _, _, _ => none

/-- Python `re.match(pat, s)`: anchored at the start, trailing text allowed
(patterns transcribed from `^...$` regexes end in `.eos`). -/
def rmatch (p : Pat) (s : String) : Option Caps :=
  matchPat p s.data Caps.empty (fun _ cs => some cs)

/-- Text of capture group `n` (Python `m.group(n)`, empty for an absent group —
the source only reads groups that are present on a match). -/
def capGet (cs : Caps) (n : Nat) : String :=
  match cs n with
  | some l => ⟨l⟩
  | none => ""

/-- Right-nested concatenation of pattern fragments. -/
def seqs (l : List Pat) : Pat := l.foldr Pat.seq Pat.eps

def litS (s : String) : Pat := .lit s.data
def litCIS (s : String) : Pat := .litCI s.data

/-- The `\s*` fragment. -/
def ws0 : Pat := .starG pyWsB

/-- The `.` class (any character but newline). -/
def dotB (c : Char) : Bool := !(c == '\n')

def digitB (c : Char) : Bool := c.isDigit
def alphaB (c : Char) : Bool := c.isAlpha
def upperB (c : Char) : Bool := c.isUpper
def quoteB (c : Char) : Bool := c == '\''

/-- The `[^=+\-*/()]` class from the direct-reference regex. -/
def notOpB (c : Char) : Bool :=
  !(c == '=' || c == '+' || c == '-' || c == '*' || c == '/' || c == '(' || c == ')')

/-! ## The source regexes, transcribed -/

/-- `([A-Z]+)(\d+):([A-Z]+)(\d+)` with re.IGNORECASE (prefix match), used by
`_get_range_value`, `_match_in_range` and `_resolve_vlookup`. -/
def pRange : Pat :=
  seqs [.group 1 (.plusG alphaB), .group 2 (.plusG digitB), litS ":",
        .group 3 (.plusG alphaB), .group 4 (.plusG digitB)]

/-- `^=('?[^=+\-*/()]+?'?!)?\$?([A-Z]+)\$?(\d+)$` with re.IGNORECASE
(simple cell reference, `_resolve_formula`). -/
def pDirect : Pat :=
  seqs [litS "=",
        .opt (.group 1 (seqs [.opt (.cls quoteB), .plusL notOpB, .opt (.cls quoteB), litS "!"])),
        .opt (litS "$"), .group 2 (.plusG alphaB), .opt (litS "$"), .group 3 (.plusG digitB),
        .eos]

/-- `^=IFERROR\((.+),\s*""\s*\)$` with re.IGNORECASE. -/
def pIfError : Pat :=
  seqs [litCIS "=IFERROR(", .group 1 (.plusG dotB), litS ",", ws0, litS "\"\"", ws0,
        litS ")", .eos]

/-- `^(.+)/(\d+)\s*$` (trailing divisor in `_resolve_index_match`). -/
def pDiv : Pat :=
  seqs [.group 1 (.plusG dotB), litS "/", .group 2 (.plusG digitB), ws0, .eos]

/-- The quoted-sheet range fragment `'.+?'!\$?[A-Z]+\$?\d+:\$?[A-Z]+\$?\d+`
occurring (three times) inside the INDEX/MATCH regex. -/
def pQRange : Pat :=
  seqs [.cls quoteB, .plusL dotB, litS "'!",
        .opt (litS "$"), .plusG alphaB, .opt (litS "$"), .plusG digitB, litS ":",
        .opt (litS "$"), .plusG alphaB, .opt (litS "$"), .plusG digitB]

/-- The optional second `MATCH` clause of the INDEX/MATCH regex:
`(?:\s*,\s*MATCH\((.+?),\s*('...')\s*,\s*0\s*\))?`. -/
def pSecondMatch : Pat :=
  seqs [ws0, litS ",", ws0, litCIS "MATCH(", .group 4 (.plusL dotB), litS ",", ws0,
        .group 5 pQRange, ws0, litS ",", ws0, litS "0", ws0, litS ")"]

/-- The INDEX/MATCH regex of `_resolve_index_match` (re.IGNORECASE, prefix
match):
`INDEX\(\s*('...')\s*,\s*MATCH\((.+?),\s*('...')\s*,\s*0\s*\)(?:...)?\s*\)`. -/
def pIndexMatch : Pat :=
  seqs [litCIS "INDEX(", ws0, .group 1 pQRange, ws0, litS ",", ws0,
        litCIS "MATCH(", .group 2 (.plusL dotB), litS ",", ws0, .group 3 pQRange,
        ws0, litS ",", ws0, litS "0", ws0, litS ")",
        .opt pSecondMatch, ws0, litS ")"]

/-- `VLOOKUP\(\s*(.+?)\s*,\s*(.+?\$?[A-Z]+\$?\d+:\$?[A-Z]+\$?\d+)\s*,\s*(\d+)\s*,\s*(?:FALSE|0)\s*\)`
with re.IGNORECASE (prefix match), from `_resolve_ref_or_value`. -/
def pVlookup : Pat :=
  seqs [litCIS "VLOOKUP(", ws0, .group 1 (.plusL dotB), ws0, litS ",", ws0,
        .group 2 (seqs [.plusL dotB, .opt (litS "$"), .plusG alphaB, .opt (litS "$"),
                        .plusG digitB, litS ":", .opt (litS "$"), .plusG alphaB,
                        .opt (litS "$"), .plusG digitB]),
        ws0, litS ",", ws0, .group 3 (.plusG digitB), ws0, litS ",", ws0,
        .alt (litCIS "FALSE") (litS "0"), ws0, litS ")"]

/-- `^=IF\(\s*(.+?)\s*=\s*(?:0|"")\s*,\s*""\s*,\s*(.+?)\s*\)$` with
re.IGNORECASE. -/
def pIf : Pat :=
  seqs [litCIS "=IF(", ws0, .group 1 (.plusL dotB), ws0, litS "=", ws0,
        .alt (litS "0") (litS "\"\""), ws0, litS ",", ws0, litS "\"\"", ws0,
        litS ",", ws0, .group 2 (.plusL dotB), ws0, litS ")", .eos]

/-- `^=ROUND\(\s*(.+?)\s*,\s*(\d+)\s*\)$` with re.IGNORECASE. -/
def pRound : Pat :=
  seqs [litCIS "=ROUND(", ws0, .group 1 (.plusL dotB), ws0, litS ",", ws0,
        .group 2 (.plusG digitB), ws0, litS ")", .eos]

/-- `^=CONCATENATE\((.+)\)$` with re.IGNORECASE. -/
def pConcat : Pat :=
  seqs [litCIS "=CONCATENATE(", .group 1 (.plusG dotB), litS ")", .eos]

/-- `^[A-Za-z].*![A-Z]+\d+$` (no flags) — sheet-qualified reference test in
`_resolve_ref_or_value`. -/
def pRefSheet : Pat :=
  seqs [.cls alphaB, .starG dotB, litS "!", .plusG upperB, .plusG digitB, .eos]

/-- `^[A-Z]+\d+$` (no flags) — plain coordinate test in
`_resolve_ref_or_value`. -/
def pRefPlain : Pat :=
  seqs [.plusG upperB, .plusG digitB, .eos]

/-! ## Values, the CellStore and the reference helpers -/

/-- A resolved cell value.  Python `int` / `float` / `str`; floats are modelled
as exact rationals (see the header note). -/
inductive Val where
  | int (i : Int)
  | float (q : ℚ)
  | str (s : String)
deriving DecidableEq

/-- Decimal digits of the fractional expansion of `num/den` (up to `k`). -/
def fracDigits (den : Nat) : Nat → Nat → List Char
  | _, 0 => []
  | num, k + 1 =>
    if num = 0 then []
    else Char.ofNat (48 + num * 10 / den) :: fracDigits den (num * 10 % den) k

/-- Python `str(<float>)`, modelled on the exact rational (decimal expansion,
truncated at 17 places; Python's shortest-roundtrip repr of binary floats is
not modelled — no theorem below depends on this function's output). -/
def floatStr (q : ℚ) : String :=
  (if q < 0 then "-" else "") ++ toString (q.num.natAbs / q.den) ++ "." ++
    (let f := fracDigits q.den (q.num.natAbs % q.den) 17
     if f.isEmpty then "0" else ⟨f⟩)

/-- Python `str(val)` for a cell value. -/
def valStr : Val → String
  | .int i => toString i
  | .float q => floatStr q
  | .str s => s

/-- Python `float(val)` (`ValueError`/`TypeError` as `none`). -/
def toFloatQ : Val → Option ℚ
  | .int i => some (i : ℚ)
  | .float q => some q
  | .str s => pyFloat s

/-- Python `round(x, n)` on the rational model: half-to-even at `n` decimal
places (binary-float artifacts not modelled). -/
def pyRound (q : ℚ) (n : Nat) : ℚ :=
  let m : ℚ := q * (10 : ℚ) ^ n
  let fl : Int := ⌊m⌋
  let frac : ℚ := m - (fl : ℚ)
  let r : Int :=
    if frac > 1/2 then fl + 1
    else if frac < 1/2 then fl
    else if fl % 2 = 0 then fl else fl + 1
  (r : ℚ) / (10 : ℚ) ^ n

/-- Python `val == 0` for a cell value (int 0 or float 0.0). -/
def pyEqZero : Val → Bool
  | .int i => i == 0
  | .float q => q == 0
  | .str _ => false

/-- Python `val == ""`. -/
def pyEqEmpty : Val → Bool
  | .str s => s == ""
  | _ => false

/-- The CellStore: `cell_values` keyed by `(sheet name, coordinate)`. -/
def Store : Type := String × String → Option Val

/-- `cell_values[(sheet, coord)] = v` (dictionary update). -/
def Store.insert (s : Store) (key : String × String) (v : Val) : Store :=
  fun k => if k = key then some v else s k

/-- `_parse_cell_ref(ref_str, current_sheet)`.  `split('!', 1)` splits at the
first `!`; everything after it (later `!`s included) is the coordinate part. -/
def parse_cell_ref (ref cur : String) : String × String :=
  let s := stripChars '"' (stripChars '\'' (pyStrip ref))
  match s.data.span (fun c => !(c == '!')) with
  | (before, '!' :: after) =>
    (stripChars '"' (stripChars '\'' ⟨before⟩), removeDollars (pyStrip ⟨after⟩))
  | (_, _) => (cur, removeDollars (pyStrip s))

/-- `_col_letter_to_num(col_str)`: base-26 with A = 1, after `.upper()` and
dropping `$`. -/
def col_letter_to_num (s : String) : Nat :=
  ((upperStr s).data.filter (fun c => !(c == '$'))).foldl
    (fun a c => a * 26 + (c.toNat - 64)) 0

/-- The `while n > 0` loop of `_num_to_col_letter`, with a structural fuel
bound on the iteration count; `(n - 1) / 26 < n` for `n ≥ 1`, so any fuel
`≥ n` reproduces the Python loop exactly. -/
def numToColAux : Nat → Nat → String
  | 0, _ => ""
  | fuel + 1, n =>
    if n = 0 then ""
    else numToColAux fuel ((n - 1) / 26) ++ ⟨[Char.ofNat (65 + (n - 1) % 26)]⟩

/-- `_num_to_col_letter(n)`. -/
def num_to_col_letter (n : Nat) : String := numToColAux n n

/-- Coordinate text `f"{_num_to_col_letter(col)}{row}"`. -/
def coordStr (col row : Nat) : String := num_to_col_letter col ++ toString row

/-- Parse the four numeric components of a range via the shared regex
(`_col_letter_to_num(group 1)`, `int(group 2)`, …). -/
def parseRangeNums (s : String) : Option (Nat × Nat × Nat × Nat) :=
  match rmatch pRange s with
  | none => none
  | some caps =>
    match caps 1, caps 2, caps 3, caps 4 with
    | some g1, some g2, some g3, some g4 =>
      some (col_letter_to_num ⟨g1⟩, digitsToNat g2, col_letter_to_num ⟨g3⟩, digitsToNat g4)
    | _, _, _, _ => none

/-- The per-cell comparison of `_match_in_range` / `_resolve_vlookup`:
`val is not None and str(val).strip() == str(lookup_val).strip()`. -/
def cellMatches (store : Store) (lv : Val) (sheet coord : String) : Bool :=
  match store (sheet, coord) with
  | some v => pyStrip (valStr v) == pyStrip (valStr lv)
  | none => false

/-- 1-based position of the first index `i < cnt` with `p (start + i)`
(the `enumerate(range(start, end+1), 1)` loop pattern). -/
def scanFirst (p : Nat → Bool) : Nat → Nat → Option Nat
  | _, 0 => none
  | start, cnt + 1 =>
    if p start then some 1 else (scanFirst p (start + 1) cnt).map (· + 1)

/-- `_match_in_range(lookup_val, sheet, range_str)` (the unused `match_type`
parameter is dropped). -/
def match_in_range (store : Store) (lookupVal : Val) (sheet rangeStr : String) : Option Nat :=
  match parseRangeNums (removeDollars rangeStr) with
  | none => none
  | some (c1, r1, c2, r2) =>
    if c1 = c2 then
      scanFirst (fun r => cellMatches store lookupVal sheet (coordStr c1 r)) r1 (r2 + 1 - r1)
    else if r1 = r2 then
      scanFirst (fun c => cellMatches store lookupVal sheet (coordStr c r1)) c1 (c2 + 1 - c1)
    else none

/-- `_get_range_value(sheet, range_str, row_idx, col_idx)`. -/
def get_range_value (store : Store) (sheet rangeStr : String) (rowIdx colIdx : Nat) : Option Val :=
  match parseRangeNums (removeDollars rangeStr) with
  | none => none
  | some (c1, r1, _, _) =>
    store (sheet, coordStr (c1 + colIdx - 1) (r1 + rowIdx - 1))

/-- The scanning loop of `_resolve_vlookup`: find the first row in the first
column matching the lookup value, then read the result column of that row. -/
def vlookupScan (store : Store) (lv : Val) (vs : String) (c1 colIndex : Nat) :
    Nat → Nat → Option Val
  | _, 0 => none
  | r, cnt + 1 =>
    if cellMatches store lv vs (coordStr c1 r) then
      store (vs, coordStr (c1 + colIndex - 1) r)
    else vlookupScan store lv vs c1 colIndex (r + 1) cnt

/-- `_resolve_ref_or_value(expr, current_sheet)`.  The `fuel` argument bounds
the VLOOKUP-in-lookup-expression nesting depth; since the regex's lookup
subexpression is a strict substring of `expr`, any fuel larger than the
expression length behaves exactly like the Python code.  The body of
`_resolve_vlookup` is inlined at the single mutual-recursion point (so the
definition is structurally recursive on `fuel`); `resolve_vlookup` below is
the same code as a standalone function, and the inlined branch is
definitionally equal to it. -/
def resolve_ref_or_value (store : Store) : Nat → String → String → Option Val
  | 0, _, _ => none
  | fuel + 1, expr, cur =>
    let e := pyStrip expr
    if strStarts e "\"" && strEnds e "\"" then some (.str (stripChars '"' e))
    else
      match rmatch pVlookup e with
      | some caps =>
        -- _resolve_vlookup(m_vl.group(1), m_vl.group(2), int(m_vl.group(3)), cur)
        match resolve_ref_or_value store fuel (capGet caps 1) cur with
        | none => none
        | some lv =>
          let vp := parse_cell_ref (capGet caps 2) cur
          match parseRangeNums (removeDollars vp.2) with
          | none => none
          | some (c1, r1, _, r2) =>
            vlookupScan store lv vp.1 c1 (digitsToNat ((caps 3).getD [])) r1 (r2 + 1 - r1)
      | none =>
        let clean := removeQuotes (removeDollars e)
        if (rmatch pRefSheet clean).isSome || (rmatch pRefPlain clean).isSome then
          store (parse_cell_ref e cur)
        else if e.data.contains '.' then
          match pyFloat e with
          | some q => some (.float q)
          | none => some (.str e)
        else
          match pyInt e with
          | some i => some (.int i)
          | none => some (.str e)

/-- `_resolve_vlookup(lookup_expr, table_range, col_index, current_sheet)`. -/
def resolve_vlookup (store : Store) (fuel : Nat) (lookup_expr table_range : String)
    (col_index : Nat) (cur : String) : Option Val :=
  match resolve_ref_or_value store fuel lookup_expr cur with
  | none => none
  | some lv =>
    let vp := parse_cell_ref table_range cur
    match parseRangeNums (removeDollars vp.2) with
    | none => none
    | some (c1, r1, _, r2) =>
      vlookupScan store lv vp.1 c1 col_index r1 (r2 + 1 - r1)

/-- The Python exceptions that can escape `_resolve_formula`. -/
inductive PyErr where
  | zeroDivision
deriving DecidableEq

/-- `_resolve_index_match(expr, current_sheet)`.  The trailing `/<divisor>`
scale computes `float(val) / divisor` guarded by
`except (ValueError, TypeError)`; `ZeroDivisionError` is NOT caught there, so
a zero divisor with a float-convertible value is an explicit error here. -/
def resolve_index_match (store : Store) (fuel : Nat) (expr0 cur : String) :
    Except PyErr (Option Val) :=
  let ed : String × Nat :=
    match rmatch pDiv expr0 with
    | some caps => (pyStrip (capGet caps 1), digitsToNat ((caps 2).getD []))
    | none => (expr0, 1)
  match ed with
  | (expr, divisor) =>
    match rmatch pIndexMatch expr with
    | none => .ok none
    | some caps =>
      let index_range := pyStrip (capGet caps 1)
      let row_lookup_expr := pyStrip (capGet caps 2)
      let row_match_range := pyStrip (capGet caps 3)
      match parse_cell_ref index_range cur with
      | (idx_sheet, idx_range) =>
        match resolve_ref_or_value store fuel row_lookup_expr cur with
        | none => .ok none
        | some row_lookup_val =>
          match parse_cell_ref row_match_range cur with
          | (rm_sheet, rm_range) =>
            match match_in_range store row_lookup_val rm_sheet rm_range with
            | none => .ok none
            | some row_idx =>
              let finish : Nat → Except PyErr (Option Val) := fun col_idx =>
                match get_range_value store idx_sheet idx_range row_idx col_idx with
                | none => .ok none
                | some v =>
                  if divisor ≠ 1 then
                    match toFloatQ v with
                    | none => .ok (some v)   -- ValueError/TypeError: pass
                    | some q =>
                      if divisor = 0 then .error .zeroDivision
                      else .ok (some (.float (q / (divisor : ℚ))))
                  else .ok (some v)
              match caps 4, caps 5 with
              | some g4, some g5 =>
                match resolve_ref_or_value store fuel (pyStrip ⟨g4⟩) cur with
                | none => .ok none
                | some col_lookup_val =>
                  match parse_cell_ref (pyStrip ⟨g5⟩) cur with
                  | (cm_sheet, cm_range) =>
                    match match_in_range store col_lookup_val cm_sheet cm_range with
                    | none => .ok none
                    | some col_idx => finish col_idx
              | _, _ => finish 1

/-- Normalization at the head of `_resolve_formula`: `f = formula.strip()`
followed by the `=+` → `=` rewrite. -/
def normF (formula : String) : String :=
  let f0 := pyStrip formula
  if strStarts f0 "=+" then "=" ++ strDrop f0 2 else f0

/-- `_resolve_formula(formula, current_sheet)`.  Shape recognition in source
order; a raised `ZeroDivisionError` surfaces as `.error`. -/
def resolve_formula (store : Store) (formula cur : String) : Except PyErr (Option Val) :=
  if !strStarts formula "=" then .ok (some (.str formula)) else
  let f := normF formula
  let fuel := strLen f + 1
  -- simple cell reference
  if (rmatch pDirect f).isSome then
    .ok (store (parse_cell_ref (strDrop f 1) cur))
  else
    match rmatch pIfError f with
    | some caps =>
      -- IFERROR: inner INDEX/MATCH; `None` becomes ""
      (resolve_index_match store fuel (pyStrip (capGet caps 1)) cur).map
        (fun v => some (v.getD (.str "")))
    | none =>
      match
        (if hasSub (upperStr f) "INDEX(" && hasSub (upperStr f) "MATCH(" then
          resolve_index_match store fuel (if strStarts f "=" then strDrop f 1 else f) cur
        else .ok none) with
      | .error e => .error e
      | .ok (some v) => .ok (some v)
      | .ok none =>
        match rmatch pIf f with
        | some caps =>
          match store (parse_cell_ref (pyStrip (capGet caps 2)) cur) with
          | none => .ok (some (.str ""))
          | some v =>
            if pyEqZero v || pyEqEmpty v then .ok (some (.str "")) else .ok (some v)
        | none =>
          match rmatch pRound f with
          | some caps =>
            match store (parse_cell_ref (pyStrip (capGet caps 1)) cur) with
            | none => .ok none
            | some v =>
              match toFloatQ v with
              | some q => .ok (some (.float (pyRound q (digitsToNat ((caps 2).getD [])))))
              | none => .ok (some v)
          | none =>
            match rmatch pConcat f with
            | some caps =>
              let parts := (splitOnChar ',' (capGet caps 1).data).map (fun arg =>
                let a := pyStrip ⟨arg⟩
                if strStarts a "\"" && strEnds a "\"" then stripChars '"' a
                else
                  match store (parse_cell_ref a cur) with
                  | some v => valStr v
                  | none => "")
              .ok (some (.str (joinParts parts)))
            | none => .ok none

/-! ## The resolution scheduler and the workbook writer -/

/-- An outstanding formula cell `(sheet_name, coordinate, formula)`. -/
def Cell : Type := String × String × String

def cellKey (c : Cell) : String × String := (c.1, c.2.1)

/-- Result of one pass or of the whole run; an uncaught Python exception
aborts with the store as mutated so far. -/
inductive PassResult where
  | ok (remaining : List Cell) (s : Store) (newly : Nat)
  | err (e : PyErr) (s : Store)

inductive RunResult where
  | ok (remaining : List Cell) (s : Store)
  | err (e : PyErr) (s : Store)

/-- The store after a run (also on abort). -/
def RunResult.store : RunResult → Store
  | .ok _ s => s
  | .err _ s => s

/-- One pass of the multi-pass loop in `_resolve_xlsm_formulas`: resolve each
outstanding cell in order, writing successes into the store immediately. -/
def resolve_pass : List Cell → Store → PassResult
  | [], s => .ok [] s 0
  | c :: rest, s =>
    match resolve_formula s c.2.2 c.1 with
    | .error e => .err e s
    | .ok none =>
      match resolve_pass rest s with
      | .ok rem s' n => .ok (c :: rem) s' n
      | .err e s' => .err e s'
    | .ok (some v) =>
      match resolve_pass rest (s.insert (cellKey c) v) with
      | .ok rem s' n => .ok rem s' (n + 1)
      | .err e s' => .err e s'

/-- The `for pass_num in range(max_passes)` loop: stop early when a pass
resolves nothing (`max_passes` is 3 in the source). -/
def resolve_passes : Nat → List Cell → Store → RunResult
  | 0, cells, s => .ok cells s
  | n + 1, cells, s =>
    match resolve_pass cells s with
    | .err e s' => .err e s'
    | .ok rem s' newly => if newly = 0 then .ok rem s' else resolve_passes n rem s'

/-- Collection of outstanding formula cells: a formula cell whose key already
has a (seeded) store entry is skipped. -/
def collect_outstanding (cells : List Cell) (s : Store) : List Cell :=
  cells.filter (fun c => (s (cellKey c)).isNone)

/-- A source sheet: name plus cells `(row, column, value)`; a cell whose value
is a string starting with `=` is a formula cell. -/
def Sheet : Type := String × List (Nat × Nat × Option Val)

def isFormulaVal : Option Val → Bool
  | some (.str s) => strStarts s "="
  | _ => false

/-- The output-workbook construction at the end of `_resolve_xlsm_formulas`:
same sheets in the same order; formula cells get the store value for their
coordinate (absent entry → empty cell); other cells are copied unchanged. -/
def write_workbook (wb : List Sheet) (store : Store) : List Sheet :=
  wb.map (fun sh =>
    (sh.1, sh.2.map (fun c =>
      (c.1, c.2.1,
        if isFormulaVal c.2.2 then store (sh.1, coordStr c.2.1 c.1) else c.2.2))))

end CreditPaper


namespace CreditPaper

/-! ## Soundness of the matcher: a declarative match relation

`Sem p s r cs cs'` says: pattern `p` can match a prefix of `s` leaving the
suffix `r`, turning capture environment `cs` into `cs'`, under exactly the
matching rules of the engine.  `matchPat_sound` lets theorems invert a
successful `rmatch` into structural facts about the input string. -/

inductive Sem : Pat → List Char → List Char → Caps → Caps → Prop where
  | lit (l r : List Char) (cs : Caps) : Sem (.lit l) (l ++ r) r cs cs
  | litCI (l t r : List Char) (cs : Caps)
      (h : List.Forall₂ (fun a b => charCIeq a b = true) l t) :
      Sem (.litCI l) (t ++ r) r cs cs
  | cls (p : Char → Bool) (c : Char) (r : List Char) (cs : Caps) (h : p c = true) :
      Sem (.cls p) (c :: r) r cs cs
  | seq {a b : Pat} {s m r : List Char} {cs cs₁ cs₂ : Caps}
      (ha : Sem a s m cs cs₁) (hb : Sem b m r cs₁ cs₂) : Sem (.seq a b) s r cs cs₂
  | altL {a : Pat} (b : Pat) {s r : List Char} {cs cs' : Caps}
      (h : Sem a s r cs cs') : Sem (.alt a b) s r cs cs'
  | altR (a : Pat) {b : Pat} {s r : List Char} {cs cs' : Caps}
      (h : Sem b s r cs cs') : Sem (.alt a b) s r cs cs'
  | optS {a : Pat} {s r : List Char} {cs cs' : Caps}
      (h : Sem a s r cs cs') : Sem (.opt a) s r cs cs'
  | optN (a : Pat) (s : List Char) (cs : Caps) : Sem (.opt a) s s cs cs
  | starG (p : Char → Bool) (t r : List Char) (cs : Caps)
      (h : ∀ c ∈ t, p c = true) : Sem (.starG p) (t ++ r) r cs cs
  | plusG (p : Char → Bool) (t r : List Char) (cs : Caps)
      (hne : t ≠ []) (h : ∀ c ∈ t, p c = true) : Sem (.plusG p) (t ++ r) r cs cs
  | plusL (p : Char → Bool) (t r : List Char) (cs : Caps)
      (hne : t ≠ []) (h : ∀ c ∈ t, p c = true) : Sem (.plusL p) (t ++ r) r cs cs
  | group (n : Nat) {a : Pat} (t r : List Char) {cs cs' : Caps}
      (h : Sem a (t ++ r) r cs cs') : Sem (.group n a) (t ++ r) r cs (cs'.set n t)
  | eps (s : List Char) (cs : Caps) : Sem .eps s s cs cs
  | eos (cs : Caps) : Sem .eos [] [] cs cs

/-- Conservative syntactic check that pattern `p` never consumes `ch`. -/
def patAvoids (ch : Char) : Pat → Bool
  | .lit l => l.all (fun a => !(a == ch))
  | .litCI l => l.all (fun a => !(charCIeq a ch))
  | .cls p => !(p ch)
  | .seq a b => patAvoids ch a && patAvoids ch b
  | .alt a b => patAvoids ch a && patAvoids ch b
  | .opt a => patAvoids ch a
  | .starG p => !(p ch)
  | .plusG p => !(p ch)
  | .plusL p => !(p ch)
  | .group _ a => patAvoids ch a
  | .eps => true
  | .eos => true

/-- Syntactic check that a pattern contains no capture group. -/
def patGroupFree : Pat → Bool
  | .lit _ => true
  | .litCI _ => true
  | .cls _ => true
  | .seq a b => patGroupFree a && patGroupFree b
  | .alt a b => patGroupFree a && patGroupFree b
  | .opt a => patGroupFree a
  | .starG _ => true
  | .plusG _ => true
  | .plusL _ => true
  | .group _ _ => false
  | .eps => true
  | .eos => true

/-- Text of the form `'<sheet>'!<coordinates>`: a single-quoted sheet
qualifier followed by `!`. -/
def QuotedL (t : List Char) : Prop :=
  ∃ mid cc, mid ≠ [] ∧ t = '\'' :: (mid ++ '\'' :: '!' :: cc)


/-- Recognition of the `=IFERROR(<inner>, "")` shape on the normalized
formula text, returning the stripped inner expression (group 1). -/
def iferrorInner (f : String) : Option String :=
  (rmatch pIfError (normF f)).map (fun caps => pyStrip (capGet caps 1))

/-- The store component of a pass result (also at an abort). -/
def passStore : PassResult → Store
  | .ok _ s _ => s
  | .err _ s => s

/-- Whatever a pattern matches, the remainder is a suffix: the input splits as
consumed text plus remainder. -/
theorem sem_consumes {p : Pat} {s r : List Char} {cs cs' : Caps}
    (h : Sem p s r cs cs') : ∃ t, s = t ++ r := by
  induction h with
  | lit l r cs => exact ⟨l, rfl⟩
  | litCI l t r cs h => exact ⟨t, rfl⟩
  | cls p c r cs h => exact ⟨[c], rfl⟩
  | seq ha hb iha ihb =>
    obtain ⟨t₁, rfl⟩ := iha
    obtain ⟨t₂, rfl⟩ := ihb
    exact ⟨t₁ ++ t₂, by simp⟩
  | altL b h ih => exact ih
  | altR a h ih => exact ih
  | optS h ih => exact ih
  | optN a s cs => exact ⟨[], rfl⟩
  | starG p t r cs h => exact ⟨t, rfl⟩
  | plusG p t r cs hne h => exact ⟨t, rfl⟩
  | plusL p t r cs hne h => exact ⟨t, rfl⟩
  | group n t r h ih => exact ⟨t, rfl⟩
  | eps s cs => exact ⟨[], rfl⟩
  | eos cs => exact ⟨[], rfl⟩

theorem dropLit_sound : ∀ (l s r : List Char), dropLit l s = some r → s = l ++ r := by
  intro l
  induction l with
  | nil => intro s r h; simpa [dropLit] using h
  | cons a l ih =>
    intro s r h
    cases s with
    | nil => simp [dropLit] at h
    | cons c s =>
      simp only [dropLit] at h
      by_cases hac : (a == c) = true
      · rw [if_pos hac] at h
        have := ih s r h
        subst this
        simp [beq_iff_eq] at hac
        subst hac
        rfl
      · rw [if_neg hac] at h
        exact absurd h (by simp)

theorem dropLitCI_sound : ∀ (l s r : List Char), dropLitCI l s = some r →
    ∃ t, s = t ++ r ∧ List.Forall₂ (fun a b => charCIeq a b = true) l t := by
  intro l
  induction l with
  | nil =>
    intro s r h
    simp only [dropLitCI] at h
    exact ⟨[], by simpa using h, List.Forall₂.nil⟩
  | cons a l ih =>
    intro s r h
    cases s with
    | nil => simp [dropLitCI] at h
    | cons c s =>
      simp only [dropLitCI] at h
      by_cases hac : charCIeq a c = true
      · rw [if_pos hac] at h
        obtain ⟨t, rfl, hf⟩ := ih s r h
        exact ⟨c :: t, rfl, List.Forall₂.cons hac hf⟩
      · rw [if_neg hac] at h
        exact absurd h (by simp)

theorem starGo_sound (p : Char → Bool) :
    ∀ (s : List Char) (k : List Char → Option Caps) (res : Caps),
      starGo p s k = some res →
      ∃ t r, s = t ++ r ∧ (∀ c ∈ t, p c = true) ∧ k r = some res := by
  intro s
  induction s with
  | nil =>
    intro k res h
    exact ⟨[], [], rfl, by simp, by simpa [starGo] using h⟩
  | cons c rest ih =>
    intro k res h
    simp only [starGo] at h
    by_cases hc : p c = true
    · rw [if_pos hc] at h
      cases hgo : starGo p rest k with
      | some r0 =>
        rw [hgo] at h
        obtain ⟨t, r, rfl, hall, hk⟩ := ih k r0 hgo
        cases h
        exact ⟨c :: t, r, rfl, by
          intro d hd
          rcases List.mem_cons.mp hd with h1 | h2
          · exact h1 ▸ hc
          · exact hall d h2, hk⟩
      | none =>
        rw [hgo] at h
        exact ⟨[], c :: rest, rfl, by simp, h⟩
    · rw [if_neg hc] at h
      exact ⟨[], c :: rest, rfl, by simp, h⟩

theorem lazyGo_sound (p : Char → Bool) :
    ∀ (s : List Char) (k : List Char → Option Caps) (res : Caps),
      lazyGo p s k = some res →
      ∃ t r, s = t ++ r ∧ (∀ c ∈ t, p c = true) ∧ k r = some res := by
  intro s
  induction s with
  | nil =>
    intro k res h
    exact ⟨[], [], rfl, by simp, by simpa [lazyGo] using h⟩
  | cons c rest ih =>
    intro k res h
    simp only [lazyGo] at h
    cases hk : k (c :: rest) with
    | some r0 =>
      rw [hk] at h
      cases h
      exact ⟨[], c :: rest, rfl, by simp, hk⟩
    | none =>
      rw [hk] at h
      by_cases hc : p c = true
      · rw [if_pos hc] at h
        obtain ⟨t, r, rfl, hall, hres⟩ := ih k res h
        exact ⟨c :: t, r, rfl, by
          intro d hd
          rcases List.mem_cons.mp hd with h1 | h2
          · exact h1 ▸ hc
          · exact hall d h2, hres⟩
      · rw [if_neg hc] at h
        exact absurd h (by simp)

/-- Taking exactly the consumed prefix. -/
theorem take_consumed (t r : List Char) :
    (t ++ r).take ((t ++ r).length - r.length) = t := by
  have hlen : (t ++ r).length - r.length = t.length := by simp
  rw [hlen, List.take_left]

/-- Soundness of the matcher: a successful continuation-passing match factors
through the declarative relation. -/
theorem matchPat_sound :
    ∀ (p : Pat) (s : List Char) (cs : Caps) (k : List Char → Caps → Option Caps)
      (res : Caps), matchPat p s cs k = some res →
      ∃ r cs', Sem p s r cs cs' ∧ k r cs' = some res := by
  intro p
  induction p with
  | lit l =>
    intro s cs k res h
    simp only [matchPat] at h
    cases hd : dropLit l s with
    | some r =>
      rw [hd] at h
      obtain rfl := dropLit_sound l s r hd
      exact ⟨r, cs, Sem.lit l r cs, h⟩
    | none => rw [hd] at h; exact absurd h (by simp)
  | litCI l =>
    intro s cs k res h
    simp only [matchPat] at h
    cases hd : dropLitCI l s with
    | some r =>
      rw [hd] at h
      obtain ⟨t, rfl, hf⟩ := dropLitCI_sound l s r hd
      exact ⟨r, cs, Sem.litCI l t r cs hf, h⟩
    | none => rw [hd] at h; exact absurd h (by simp)
  | cls p =>
    intro s cs k res h
    cases s with
    | nil => simp [matchPat] at h
    | cons c rest =>
      simp only [matchPat] at h
      by_cases hc : p c = true
      · rw [if_pos hc] at h
        exact ⟨rest, cs, Sem.cls p c rest cs hc, h⟩
      · rw [if_neg hc] at h; exact absurd h (by simp)
  | seq a b iha ihb =>
    intro s cs k res h
    simp only [matchPat] at h
    obtain ⟨m, cs₁, hsa, hrest⟩ := iha s cs _ res h
    obtain ⟨r, cs₂, hsb, hk⟩ := ihb m cs₁ k res hrest
    exact ⟨r, cs₂, Sem.seq hsa hsb, hk⟩
  | alt a b iha ihb =>
    intro s cs k res h
    simp only [matchPat] at h
    cases ha : matchPat a s cs k with
    | some r0 =>
      rw [ha] at h; cases h
      obtain ⟨r, cs', hs, hk⟩ := iha s cs k _ ha
      exact ⟨r, cs', Sem.altL b hs, hk⟩
    | none =>
      rw [ha] at h
      obtain ⟨r, cs', hs, hk⟩ := ihb s cs k res h
      exact ⟨r, cs', Sem.altR a hs, hk⟩
  | opt a iha =>
    intro s cs k res h
    simp only [matchPat] at h
    cases ha : matchPat a s cs k with
    | some r0 =>
      rw [ha] at h; cases h
      obtain ⟨r, cs', hs, hk⟩ := iha s cs k _ ha
      exact ⟨r, cs', Sem.optS hs, hk⟩
    | none =>
      rw [ha] at h
      exact ⟨s, cs, Sem.optN a s cs, h⟩
  | starG p =>
    intro s cs k res h
    simp only [matchPat] at h
    obtain ⟨t, r, rfl, hall, hk⟩ := starGo_sound p s _ res h
    exact ⟨r, cs, Sem.starG p t r cs hall, hk⟩
  | plusG p =>
    intro s cs k res h
    cases s with
    | nil => simp [matchPat] at h
    | cons c rest =>
      simp only [matchPat] at h
      by_cases hc : p c = true
      · rw [if_pos hc] at h
        obtain ⟨t, r, rfl, hall, hk⟩ := starGo_sound p rest _ res h
        refine ⟨r, cs, ?_, hk⟩
        have : c :: (t ++ r) = (c :: t) ++ r := rfl
        rw [this]
        exact Sem.plusG p (c :: t) r cs (by simp) (by
          intro d hd
          rcases List.mem_cons.mp hd with h1 | h2
          · exact h1 ▸ hc
          · exact hall d h2)
      · rw [if_neg hc] at h; exact absurd h (by simp)
  | plusL p =>
    intro s cs k res h
    cases s with
    | nil => simp [matchPat] at h
    | cons c rest =>
      simp only [matchPat] at h
      by_cases hc : p c = true
      · rw [if_pos hc] at h
        obtain ⟨t, r, rfl, hall, hk⟩ := lazyGo_sound p rest _ res h
        refine ⟨r, cs, ?_, hk⟩
        have : c :: (t ++ r) = (c :: t) ++ r := rfl
        rw [this]
        exact Sem.plusL p (c :: t) r cs (by simp) (by
          intro d hd
          rcases List.mem_cons.mp hd with h1 | h2
          · exact h1 ▸ hc
          · exact hall d h2)
      · rw [if_neg hc] at h; exact absurd h (by simp)
  | group n a iha =>
    intro s cs k res h
    simp only [matchPat] at h
    obtain ⟨r, cs', hs, hk⟩ := iha s cs _ res h
    obtain ⟨t, rfl⟩ := sem_consumes hs
    rw [take_consumed t r] at hk
    exact ⟨r, cs'.set n t, Sem.group n t r hs, hk⟩
  | eps =>
    intro s cs k res h
    exact ⟨s, cs, Sem.eps s cs, by simpa [matchPat] using h⟩
  | eos =>
    intro s cs k res h
    cases s with
    | nil => exact ⟨[], cs, Sem.eos cs, by simpa [matchPat] using h⟩
    | cons c rest => simp [matchPat] at h

/-- Soundness at the `re.match` entry point. -/
theorem rmatch_sound {p : Pat} {s : String} {caps : Caps}
    (h : rmatch p s = some caps) : ∃ r, Sem p s.data r Caps.empty caps := by
  obtain ⟨r, cs', hs, hk⟩ := matchPat_sound p s.data Caps.empty _ caps h
  cases hk
  exact ⟨r, hs⟩

end CreditPaper

namespace CreditPaper

/-! ## Inversion lemmas for `Sem` -/

theorem sem_seq_inv {a b : Pat} {s r : List Char} {cs cs₂ : Caps}
    (h : Sem (.seq a b) s r cs cs₂) :
    ∃ m cs₁, Sem a s m cs cs₁ ∧ Sem b m r cs₁ cs₂ := by
  cases h with
  | seq ha hb => exact ⟨_, _, ha, hb⟩

theorem sem_eos_inv {s r : List Char} {cs cs' : Caps}
    (h : Sem .eos s r cs cs') : s = [] ∧ r = [] ∧ cs' = cs := by
  cases h; exact ⟨rfl, rfl, rfl⟩

theorem sem_eps_inv {s r : List Char} {cs cs' : Caps}
    (h : Sem .eps s r cs cs') : r = s ∧ cs' = cs := by
  cases h; exact ⟨rfl, rfl⟩

theorem sem_lit_inv {l s r : List Char} {cs cs' : Caps}
    (h : Sem (.lit l) s r cs cs') : s = l ++ r ∧ cs' = cs := by
  cases h; exact ⟨rfl, rfl⟩

theorem sem_litCI_inv {l s r : List Char} {cs cs' : Caps}
    (h : Sem (.litCI l) s r cs cs') :
    ∃ t, s = t ++ r ∧ List.Forall₂ (fun a b => charCIeq a b = true) l t ∧ cs' = cs := by
  cases h with
  | litCI _ t _ _ hf => exact ⟨t, rfl, hf, rfl⟩

theorem sem_cls_inv {p : Char → Bool} {s r : List Char} {cs cs' : Caps}
    (h : Sem (.cls p) s r cs cs') : ∃ c, s = c :: r ∧ p c = true ∧ cs' = cs := by
  cases h with
  | cls _ c _ _ hc => exact ⟨c, rfl, hc, rfl⟩

theorem sem_starG_inv {p : Char → Bool} {s r : List Char} {cs cs' : Caps}
    (h : Sem (.starG p) s r cs cs') :
    ∃ t, s = t ++ r ∧ (∀ c ∈ t, p c = true) ∧ cs' = cs := by
  cases h with
  | starG _ t _ _ hall => exact ⟨t, rfl, hall, rfl⟩

theorem sem_plusG_inv {p : Char → Bool} {s r : List Char} {cs cs' : Caps}
    (h : Sem (.plusG p) s r cs cs') :
    ∃ t, t ≠ [] ∧ s = t ++ r ∧ (∀ c ∈ t, p c = true) ∧ cs' = cs := by
  cases h with
  | plusG _ t _ _ hne hall => exact ⟨t, hne, rfl, hall, rfl⟩

theorem sem_plusL_inv {p : Char → Bool} {s r : List Char} {cs cs' : Caps}
    (h : Sem (.plusL p) s r cs cs') :
    ∃ t, t ≠ [] ∧ s = t ++ r ∧ (∀ c ∈ t, p c = true) ∧ cs' = cs := by
  cases h with
  | plusL _ t _ _ hne hall => exact ⟨t, hne, rfl, hall, rfl⟩

theorem sem_opt_inv {a : Pat} {s r : List Char} {cs cs' : Caps}
    (h : Sem (.opt a) s r cs cs') : Sem a s r cs cs' ∨ (r = s ∧ cs' = cs) := by
  cases h with
  | optS h => exact Or.inl h
  | optN => exact Or.inr ⟨rfl, rfl⟩

theorem sem_group_inv {n : Nat} {a : Pat} {s r : List Char} {cs cs'' : Caps}
    (h : Sem (.group n a) s r cs cs'') :
    ∃ t cs', s = t ++ r ∧ Sem a (t ++ r) r cs cs' ∧ cs'' = cs'.set n t := by
  cases h with
  | group _ t _ hinner => exact ⟨t, _, rfl, hinner, rfl⟩

theorem caps_set_same (cs : Caps) (n : Nat) (v : List Char) : (cs.set n v) n = some v := by
  simp [Caps.set]

theorem caps_set_other (cs : Caps) {n m : Nat} (v : List Char) (h : m ≠ n) :
    (cs.set n v) m = cs m := by
  simp [Caps.set, h]

/-! ## Character-avoidance: patterns that can never consume a given char -/

theorem forall₂_exists_left {R : Char → Char → Prop} :
    ∀ {l t : List Char}, List.Forall₂ R l t → ∀ a ∈ l, ∃ c ∈ t, R a c := by
  intro l t h
  induction h with
  | nil => intro a ha; exact absurd ha (List.not_mem_nil a)
  | cons hR hrest ih =>
    intro a ha
    rcases List.mem_cons.mp ha with rfl | hmem
    · exact ⟨_, List.mem_cons_self _ _, hR⟩
    · obtain ⟨c, hc, hRc⟩ := ih a hmem
      exact ⟨c, List.mem_cons_of_mem _ hc, hRc⟩

theorem forall₂_exists_right {R : Char → Char → Prop} :
    ∀ {l t : List Char}, List.Forall₂ R l t → ∀ c ∈ t, ∃ a ∈ l, R a c := by
  intro l t h
  induction h with
  | nil => intro c hc; exact absurd hc (List.not_mem_nil c)
  | cons hR hrest ih =>
    intro c hc
    rcases List.mem_cons.mp hc with rfl | hmem
    · exact ⟨_, List.mem_cons_self _ _, hR⟩
    · obtain ⟨a, ha, hRa⟩ := ih c hmem
      exact ⟨a, List.mem_cons_of_mem _ ha, hRa⟩

/-- If a pattern avoids `ch`, no consumed character equals `ch`. -/
theorem sem_avoids {ch : Char} {p : Pat} {s r : List Char} {cs cs' : Caps}
    (hsem : Sem p s r cs cs') :
    patAvoids ch p = true → ∀ c ∈ s, c ∈ r ∨ c ≠ ch := by
  induction hsem with
  | lit l r cs =>
    intro hav c hc
    rcases List.mem_append.mp hc with h | h
    · right
      rintro rfl
      have := List.all_eq_true.mp hav _ h
      simp at this
    · exact Or.inl h
  | litCI l t r cs hf =>
    intro hav c hc
    rcases List.mem_append.mp hc with h | h
    · right
      rintro rfl
      obtain ⟨a, ha, hR⟩ := forall₂_exists_right hf _ h
      have := List.all_eq_true.mp hav _ ha
      rw [hR] at this
      simp at this
    · exact Or.inl h
  | cls p c r cs hc =>
    intro hav d hd
    rcases List.mem_cons.mp hd with rfl | h
    · right
      rintro rfl
      simp only [patAvoids] at hav
      rw [hc] at hav
      simp at hav
    · exact Or.inl h
  | seq ha hb iha ihb =>
    intro hav c hc
    rw [patAvoids, Bool.and_eq_true] at hav
    rcases iha hav.1 c hc with h | h
    · exact ihb hav.2 c h
    · exact Or.inr h
  | altL b h ih => intro hav c hc; rw [patAvoids, Bool.and_eq_true] at hav; exact ih hav.1 c hc
  | altR a h ih => intro hav c hc; rw [patAvoids, Bool.and_eq_true] at hav; exact ih hav.2 c hc
  | optS h ih => intro hav c hc; exact ih hav c hc
  | optN a s cs => intro _ c hc; exact Or.inl hc
  | starG p t r cs hall =>
    intro hav c hc
    rcases List.mem_append.mp hc with h | h
    · right; rintro rfl; simp only [patAvoids] at hav; rw [hall _ h] at hav; simp at hav
    · exact Or.inl h
  | plusG p t r cs hne hall =>
    intro hav c hc
    rcases List.mem_append.mp hc with h | h
    · right; rintro rfl; simp only [patAvoids] at hav; rw [hall _ h] at hav; simp at hav
    · exact Or.inl h
  | plusL p t r cs hne hall =>
    intro hav c hc
    rcases List.mem_append.mp hc with h | h
    · right; rintro rfl; simp only [patAvoids] at hav; rw [hall _ h] at hav; simp at hav
    · exact Or.inl h
  | group n t r h ih => intro hav c hc; exact ih hav c hc
  | eps s cs => intro _ c hc; exact Or.inl hc
  | eos cs => intro _ c hc; exact absurd hc (List.not_mem_nil c)

/-- For a `seqs` chain ending in `$`, a match consumes the entire input. -/
theorem sem_seqs_eos_rem : ∀ (l : List Pat) {s r : List Char} {cs cs' : Caps},
    Sem (seqs (l ++ [.eos])) s r cs cs' → r = [] := by
  intro l
  induction l with
  | nil =>
    intro s r cs cs' h
    simp only [seqs, List.nil_append, List.foldr] at h
    obtain ⟨m, cs₁, heos, heps⟩ := sem_seq_inv h
    obtain ⟨rfl, rfl, _⟩ := sem_eos_inv heos
    exact (sem_eps_inv heps).1
  | cons p l ih =>
    intro s r cs cs' h
    simp only [seqs, List.cons_append, List.foldr] at h
    obtain ⟨m, cs₁, _, hrest⟩ := sem_seq_inv h
    exact ih (by simpa only [seqs, List.foldr] using hrest)

/-- `charCIeq` relates `(` only to itself. -/
theorem charCIeq_paren {c : Char} (h : charCIeq '(' c = true) : c = '(' := by
  rw [charCIeq, Bool.or_eq_true] at h
  rcases h with h | h
  · exact (beq_iff_eq.mp h).symm
  · rw [Bool.and_eq_true, Bool.and_eq_true] at h
    exact absurd h.1.1 (by decide)

/-- The direct-reference regex never matches a string containing `(`. -/
theorem pDirect_none_of_paren {f : String} (hp : '(' ∈ f.data) :
    rmatch pDirect f = none := by
  cases hm : rmatch pDirect f with
  | none => rfl
  | some caps =>
    exfalso
    obtain ⟨r, hsem⟩ := rmatch_sound hm
    have hr : r = [] := sem_seqs_eos_rem
      [litS "=",
       .opt (.group 1 (seqs [.opt (.cls quoteB), .plusL notOpB, .opt (.cls quoteB), litS "!"])),
       .opt (litS "$"), .group 2 (.plusG alphaB), .opt (litS "$"), .group 3 (.plusG digitB)]
      hsem
    subst hr
    have hav : patAvoids '(' pDirect = true := by decide
    rcases sem_avoids hsem hav '(' hp with h | h
    · exact absurd h (List.not_mem_nil _)
    · exact h rfl

/-- A successful IFERROR match implies the formula contains `(`. -/
theorem paren_of_pIfError {f : String} {caps : Caps}
    (h : rmatch pIfError f = some caps) : '(' ∈ f.data := by
  obtain ⟨r, hsem⟩ := rmatch_sound h
  simp only [pIfError, seqs, List.foldr] at hsem
  obtain ⟨m, cs₁, hlit, _⟩ := sem_seq_inv hsem
  obtain ⟨t, heq, hf, _⟩ := sem_litCI_inv hlit
  obtain ⟨c, hct, hR⟩ := forall₂_exists_left hf '(' (by decide)
  rw [heq]
  exact List.mem_append.mpr (Or.inl (charCIeq_paren hR ▸ hct))

/-! ## The quoted-range shape inside the INDEX/MATCH regex -/

/-- Any text consumed by the `'.+?'!...` range fragment is quoted-qualified. -/
theorem quoted_of_sem_pQRange {t r : List Char} {cs cs' : Caps}
    (h : Sem pQRange (t ++ r) r cs cs') : QuotedL t := by
  simp only [pQRange, seqs, List.foldr] at h
  obtain ⟨m1, cs1, hq, h1⟩ := sem_seq_inv h
  obtain ⟨c, hceq, hcq, _⟩ := sem_cls_inv hq
  have hc : c = '\'' := by simpa [quoteB] using hcq
  subst hc
  obtain ⟨m2, cs2, hplus, h2⟩ := sem_seq_inv h1
  obtain ⟨mid, hne, hmeq, _, _⟩ := sem_plusL_inv hplus
  obtain ⟨m3, cs3, hlit, h3⟩ := sem_seq_inv h2
  obtain ⟨hleq, _⟩ := sem_lit_inv hlit
  obtain ⟨cc, hcc⟩ := sem_consumes h3
  rw [hcc] at hleq
  have hld : (litS "'!") = Pat.lit ['\'', '!'] := rfl
  rw [hleq] at hmeq
  rw [hmeq] at hceq
  refine ⟨mid, cc, hne, ?_⟩
  have hshape : t ++ r = ('\'' :: (mid ++ '\'' :: '!' :: cc)) ++ r := by
    rw [hceq]
    show '\'' :: (mid ++ (['\'', '!'] ++ (cc ++ r))) = ('\'' :: (mid ++ '\'' :: '!' :: cc)) ++ r
    simp
  exact List.append_cancel_right hshape

end CreditPaper

namespace CreditPaper

/-! ## First-match behaviour of the scanning loops -/

theorem scanFirst_some {p : Nat → Bool} :
    ∀ (cnt start k : Nat), 1 ≤ k → k ≤ cnt → p (start + k - 1) = true →
      (∀ j, 1 ≤ j → j < k → p (start + j - 1) = false) →
      scanFirst p start cnt = some k := by
  intro cnt
  induction cnt with
  | zero => intro start k h1 h2 _ _; omega
  | succ cnt ih =>
    intro start k h1 h2 hk hearlier
    by_cases hk1 : k = 1
    · subst hk1
      have hps : p start = true := by
        have harith : start + 1 - 1 = start := by omega
        rw [harith] at hk
        exact hk
      simp [scanFirst, hps]
    · have hstart : p start = false := by
        have := hearlier 1 (by omega) (by omega)
        have harith : start + 1 - 1 = start := by omega
        rw [harith] at this
        exact this
      have hrec := ih (start + 1) (k - 1) (by omega) (by omega)
        (by
          have harith : start + 1 + (k - 1) - 1 = start + k - 1 := by omega
          rw [harith]
          exact hk)
        (by
          intro j hj1 hjk
          have harith : start + 1 + j - 1 = start + (j + 1) - 1 := by omega
          rw [harith]
          exact hearlier (j + 1) (by omega) (by omega))
      have hk' : k - 1 + 1 = k := by omega
      simp [scanFirst, hstart, hrec, hk']

theorem scanFirst_none {p : Nat → Bool} :
    ∀ (cnt start : Nat), (∀ j, 1 ≤ j → j ≤ cnt → p (start + j - 1) = false) →
      scanFirst p start cnt = none := by
  intro cnt
  induction cnt with
  | zero => intro start _; simp [scanFirst]
  | succ cnt ih =>
    intro start hall
    have hstart : p start = false := by
      have := hall 1 (by omega) (by omega)
      have harith : start + 1 - 1 = start := by omega
      rw [harith] at this
      exact this
    have hrec := ih (start + 1) (by
      intro j hj1 hjc
      have harith : start + 1 + j - 1 = start + (j + 1) - 1 := by omega
      rw [harith]
      exact hall (j + 1) (by omega) (by omega))
    simp [scanFirst, hstart, hrec]

theorem vlookupScan_some {store : Store} {lv : Val} {vs : String} {c1 ci : Nat} :
    ∀ (cnt r1 row : Nat), r1 ≤ row → row < r1 + cnt →
      cellMatches store lv vs (coordStr c1 row) = true →
      (∀ r', r1 ≤ r' → r' < row → cellMatches store lv vs (coordStr c1 r') = false) →
      vlookupScan store lv vs c1 ci r1 cnt = store (vs, coordStr (c1 + ci - 1) row) := by
  intro cnt
  induction cnt with
  | zero => intro r1 row h1 h2 _ _; omega
  | succ cnt ih =>
    intro r1 row h1 h2 hm hearlier
    by_cases hr : row = r1
    · subst hr
      simp [vlookupScan, hm]
    · have hfirst : cellMatches store lv vs (coordStr c1 r1) = false :=
        hearlier r1 (by omega) (by omega)
      have hrec := ih (r1 + 1) row (by omega) (by omega) hm
        (fun r' hr1 hr2 => hearlier r' (by omega) hr2)
      simp [vlookupScan, hfirst, hrec]

theorem vlookupScan_none {store : Store} {lv : Val} {vs : String} {c1 ci : Nat} :
    ∀ (cnt r1 : Nat),
      (∀ r', r1 ≤ r' → r' < r1 + cnt → cellMatches store lv vs (coordStr c1 r') = false) →
      vlookupScan store lv vs c1 ci r1 cnt = none := by
  intro cnt
  induction cnt with
  | zero => intro r1 _; simp [vlookupScan]
  | succ cnt ih =>
    intro r1 hall
    have hfirst : cellMatches store lv vs (coordStr c1 r1) = false :=
      hall r1 (by omega) (by omega)
    have hrec := ih (r1 + 1) (fun r' h1 h2 => hall r' (by omega) (by omega))
    simp [vlookupScan, hfirst, hrec]

/-! ## C4, C5, C6: the RangeOps lookup primitives -/

/-- C4: `_match_in_range` scans a single-column range top-to-bottom and a
single-row range left-to-right, comparing by trimmed case-sensitive string
equality (`cellMatches`) against each cell's CellStore value; it returns the
1-based position of the first matching cell, and `none` when the range is
neither a single row nor a single column or when no scanned cell matches —
in particular a value present at position `k` and at no earlier position is
found at `k`. -/
theorem c4_match_first_position
    (store : Store) (lv : Val) (sheet rangeStr : String) (c1 r1 c2 r2 : Nat)
    (hp : parseRangeNums (removeDollars rangeStr) = some (c1, r1, c2, r2)) :
    (c1 = c2 →
      (∀ k, 1 ≤ k → k ≤ r2 + 1 - r1 →
        cellMatches store lv sheet (coordStr c1 (r1 + k - 1)) = true →
        (∀ j, 1 ≤ j → j < k →
          cellMatches store lv sheet (coordStr c1 (r1 + j - 1)) = false) →
        match_in_range store lv sheet rangeStr = some k) ∧
      ((∀ k, 1 ≤ k → k ≤ r2 + 1 - r1 →
          cellMatches store lv sheet (coordStr c1 (r1 + k - 1)) = false) →
        match_in_range store lv sheet rangeStr = none)) ∧
    (c1 ≠ c2 → r1 = r2 →
      (∀ k, 1 ≤ k → k ≤ c2 + 1 - c1 →
        cellMatches store lv sheet (coordStr (c1 + k - 1) r1) = true →
        (∀ j, 1 ≤ j → j < k →
          cellMatches store lv sheet (coordStr (c1 + j - 1) r1) = false) →
        match_in_range store lv sheet rangeStr = some k) ∧
      ((∀ k, 1 ≤ k → k ≤ c2 + 1 - c1 →
          cellMatches store lv sheet (coordStr (c1 + k - 1) r1) = false) →
        match_in_range store lv sheet rangeStr = none)) ∧
    (c1 ≠ c2 → r1 ≠ r2 → match_in_range store lv sheet rangeStr = none) := by
  refine ⟨?_, ?_, ?_⟩
  · intro hcc
    constructor
    · intro k h1 h2 hk hearlier
      rw [match_in_range, hp]
      dsimp only
      rw [if_pos hcc]
      exact scanFirst_some _ r1 k h1 h2 hk hearlier
    · intro hall
      rw [match_in_range, hp]
      dsimp only
      rw [if_pos hcc]
      exact scanFirst_none _ r1 (fun j hj1 hj2 => hall j hj1 hj2)
  · intro hcc hrr
    constructor
    · intro k h1 h2 hk hearlier
      rw [match_in_range, hp]
      dsimp only
      rw [if_neg hcc, if_pos hrr]
      exact scanFirst_some _ c1 k h1 h2 hk hearlier
    · intro hall
      rw [match_in_range, hp]
      dsimp only
      rw [if_neg hcc, if_pos hrr]
      exact scanFirst_none _ c1 (fun j hj1 hj2 => hall j hj1 hj2)
  · intro hcc hrr
    rw [match_in_range, hp]
    dsimp only
    rw [if_neg hcc, if_neg hrr]

/-- C4 witness: in range `A1:A3` with `"X"` stored at `A2` (and nowhere
earlier), MATCH finds position 2. -/
theorem c4_match_first_position_witness :
    match_in_range
      (fun k => if k = ("S", "A2") then some (.str "X") else none)
      (.str "X") "S" "A1:A3" = some 2 := by
  have h := (c4_match_first_position
    (fun k => if k = ("S", "A2") then some (.str "X") else none)
    (.str "X") "S" "A1:A3" 1 1 1 3 rfl).1 rfl
  refine h.1 2 (by omega) (by omega) (by decide) ?_
  intro j hj1 hj2
  have : j = 1 := by omega
  subst this
  decide

/-- C5: `_resolve_vlookup` resolves the lookup expression, then scans the
first column of the parsed table range top-to-bottom for the first row whose
CellStore value matches under trimmed string comparison, returning the
CellStore value at column `firstColumn + columnIndex - 1` of that row; it
returns `none` when the lookup value is unresolved or no row matches. -/
theorem c5_vlookup_spec
    (store : Store) (fuel : Nat) (lookup_expr table_range cur : String)
    (col_index : Nat) :
    (resolve_ref_or_value store fuel lookup_expr cur = none →
      resolve_vlookup store fuel lookup_expr table_range col_index cur = none) ∧
    (∀ lv vs vr c1 r1 c2 r2,
      resolve_ref_or_value store fuel lookup_expr cur = some lv →
      parse_cell_ref table_range cur = (vs, vr) →
      parseRangeNums (removeDollars vr) = some (c1, r1, c2, r2) →
      ((∀ row, r1 ≤ row → row ≤ r2 →
          cellMatches store lv vs (coordStr c1 row) = true →
          (∀ r', r1 ≤ r' → r' < row →
            cellMatches store lv vs (coordStr c1 r') = false) →
          resolve_vlookup store fuel lookup_expr table_range col_index cur =
            store (vs, coordStr (c1 + col_index - 1) row)) ∧
        ((∀ row, r1 ≤ row → row ≤ r2 →
            cellMatches store lv vs (coordStr c1 row) = false) →
          resolve_vlookup store fuel lookup_expr table_range col_index cur = none))) := by
  constructor
  · intro hnone
    unfold resolve_vlookup
    rw [hnone]
  · intro lv vs vr c1 r1 c2 r2 hlv hparse hp
    constructor
    · intro row hr1 hr2 hm hearlier
      unfold resolve_vlookup
      rw [hlv]
      dsimp only
      rw [hparse]
      dsimp only
      rw [hp]
      dsimp only
      exact vlookupScan_some _ r1 row hr1 (by omega) hm hearlier
    · intro hall
      unfold resolve_vlookup
      rw [hlv]
      dsimp only
      rw [hparse]
      dsimp only
      rw [hp]
      dsimp only
      exact vlookupScan_none _ r1 (fun r' h1 h2 => hall r' h1 (by omega))

/-- C5 witness: the spec's scenario — table `Lookup!B2:C4`, key `"X"` in `B3`
with value 42 in `C3`, column index 2 → 42; and an absent key → `none`. -/
theorem c5_vlookup_spec_witness :
    resolve_vlookup
      (fun k => if k = ("Lookup", "B3") then some (.str "X")
                else if k = ("Lookup", "C3") then some (.int 42) else none)
      5 "\"X\"" "'Lookup'!B2:C4" 2 "Lookup" = some (.int 42) := by
  have h := ((c5_vlookup_spec
    (fun k => if k = ("Lookup", "B3") then some (.str "X")
              else if k = ("Lookup", "C3") then some (.int 42) else none)
    5 "\"X\"" "'Lookup'!B2:C4" "Lookup" 2).2
    (.str "X") "Lookup" "B2:C4" 2 2 3 4 (by decide) (by decide) (by decide)).1 3 (by omega) (by omega)
    (by decide) (fun r' h1 h2 => by
      have : r' = 2 := by omega
      subst this
      decide)
  rw [h]
  rfl

/-- C6: `_get_range_value` computes the absolute coordinate
`(startColumn + colOffset - 1, startRow + rowOffset - 1)` from the parsed
range start and reads CellStore there, with no bounds check against the
declared range end: the result is the CellStore value at that coordinate
(present or absent), for any 1-based offsets, also past the declared size. -/
theorem c6_index_no_bounds_check
    (store : Store) (sheet rangeStr : String) (rowOff colOff c1 r1 c2 r2 : Nat)
    (hp : parseRangeNums (removeDollars rangeStr) = some (c1, r1, c2, r2))
    (_hro : 1 ≤ rowOff) (_hco : 1 ≤ colOff) :
    get_range_value store sheet rangeStr rowOff colOff =
      store (sheet, coordStr (c1 + colOff - 1) (r1 + rowOff - 1)) := by
  rw [get_range_value, hp]

/-- C6 witness: range `A1:B2` (2×2), row offset 5 runs past the declared
range, yet INDEX reads `A5` and finds the stored value 7. -/
theorem c6_index_no_bounds_check_witness :
    get_range_value (fun k => if k = ("S", "A5") then some (.int 7) else none)
      "S" "A1:B2" 5 1 = some (.int 7) := by
  have h := c6_index_no_bounds_check
    (fun k => if k = ("S", "A5") then some (.int 7) else none)
    "S" "A1:B2" 5 1 1 1 2 2 rfl (by omega) (by omega)
  rw [h]
  rfl

end CreditPaper

namespace CreditPaper

/-! ## C1, C7: divisor-zero crash and the ROUND arithmetic scenario -/

/-- C1: the claim says formula evaluation never raises, in particular for an
INDEX/MATCH formula with a trailing `/<divisor>` for every accepted divisor
including 0.  The code violates this: with `A1 = 1` on sheet `S`, the formula
`=INDEX('S'!A1:A2,MATCH(1,'S'!A1:A2,0))/0` reaches `float(val) / divisor`
with `divisor = 0`, and the surrounding `except (ValueError, TypeError)` does
not catch the resulting `ZeroDivisionError` — evaluation raises instead of
returning a value or `none`. -/
theorem c1_division_by_zero_raises :
    resolve_formula (fun k => if k = ("S", "A1") then some (.int 1) else none)
      "=INDEX('S'!A1:A2,MATCH(1,'S'!A1:A2,0))/0" "S" = .error .zeroDivision := rfl

/-- C7 counterexample: on sheet `Data` with `A1 = 10` and the single
outstanding formula cell `A2 = "=ROUND(A1/3,2)"`, the resolution run (pass
budget 3, as in the source) leaves `A2` in the outstanding list and adds no
store entry for it — it does not resolve `A2` to 3.33 as the claim states. -/
theorem c7_round_scenario_counterexample :
    resolve_passes 3 [("Data", "A2", "=ROUND(A1/3,2)")]
        (fun k => if k = ("Data", "A1") then some (.int 10) else none) =
      .ok [("Data", "A2", "=ROUND(A1/3,2)")]
        (fun k => if k = ("Data", "A1") then some (.int 10) else none) ∧
    (resolve_passes 3 [("Data", "A2", "=ROUND(A1/3,2)")]
        (fun k => if k = ("Data", "A1") then some (.int 10) else none)).store
      ("Data", "A2") = none :=
  ⟨rfl, rfl⟩

/-- C7 amended: the run leaves `A2` unresolved (blank).  The ROUND branch
captures `A1/3` as its reference argument, `_parse_cell_ref` turns it into the
nonexistent coordinate `A1/3`, the store lookup misses, and the formula
evaluates to `none` — the code performs no arithmetic on `A1/3`. -/
theorem c7_round_scenario_amended :
    resolve_formula (fun k => if k = ("Data", "A1") then some (.int 10) else none)
      "=ROUND(A1/3,2)" "Data" = .ok none := rfl

/-! ## C2: chain convergence of direct references -/

/-- C2: in a workbook whose sheet holds `A1 = 1` (literal), `B1 = "=A1"` and
`C1 = "=B1"` with no cached values for `B1`/`C1` (so exactly these two cells
are outstanding, in row order), a single resolution run with pass budget
`n ≥ 2` resolves both `B1` and `C1` to 1 — `C1` already sees `B1`'s value
within the first pass because each resolution is written to the store
immediately. -/
theorem c2_chain_convergence (sheet : String) (s : Store) (n : Nat) (hn : 2 ≤ n)
    (hA : s (sheet, "A1") = some (.int 1))
    (_hB : s (sheet, "B1") = none) (_hC : s (sheet, "C1") = none) :
    ∃ s', resolve_passes n [(sheet, "B1", "=A1"), (sheet, "C1", "=B1")] s = .ok [] s' ∧
      s' (sheet, "B1") = some (.int 1) ∧ s' (sheet, "C1") = some (.int 1) := by
  have e1 : ∀ (t : Store), resolve_formula t "=A1" sheet = .ok (t (sheet, "A1")) :=
    fun _ => rfl
  have e2 : ∀ (t : Store), resolve_formula t "=B1" sheet = .ok (t (sheet, "B1")) :=
    fun _ => rfl
  refine ⟨(s.insert (sheet, "B1") (.int 1)).insert (sheet, "C1") (.int 1), ?_, ?_, ?_⟩
  · obtain ⟨m, rfl⟩ : ∃ m, n = m + 2 := ⟨n - 2, by omega⟩
    have hB1 : (s.insert (sheet, "B1") (Val.int 1)) (sheet, "B1") = some (.int 1) := by
      simp [Store.insert]
    have hpass1 : resolve_pass [(sheet, "B1", "=A1"), (sheet, "C1", "=B1")] s =
        .ok [] ((s.insert (sheet, "B1") (.int 1)).insert (sheet, "C1") (.int 1)) 2 := by
      simp only [resolve_pass, cellKey, e1, e2, hA, hB1]
    have hpass2 : resolve_pass ([] : List Cell)
        ((s.insert (sheet, "B1") (.int 1)).insert (sheet, "C1") (.int 1)) =
        .ok [] ((s.insert (sheet, "B1") (.int 1)).insert (sheet, "C1") (.int 1)) 0 := rfl
    show resolve_passes (m + 1 + 1) _ _ = _
    rw [resolve_passes, hpass1]
    simp only [Nat.succ_ne_zero, if_neg, reduceIte]
    rw [resolve_passes, hpass2]
    simp
  · have hne : ((sheet, "B1") : String × String) ≠ (sheet, "C1") := by
      intro h
      have h2 : "B1" = "C1" := congrArg Prod.snd h
      exact absurd h2 (by decide)
    simp [Store.insert, hne]
  · simp [Store.insert]

/-- C2 witness: the concrete three-cell workbook with pass budget 2. -/
theorem c2_chain_convergence_witness :
    ∃ s', resolve_passes 2 [("S", "B1", "=A1"), ("S", "C1", "=B1")]
        (fun k => if k = ("S", "A1") then some (.int 1) else none) = .ok [] s' ∧
      s' ("S", "B1") = some (.int 1) ∧ s' ("S", "C1") = some (.int 1) :=
  c2_chain_convergence "S" (fun k => if k = ("S", "A1") then some (.int 1) else none)
    2 (by omega) rfl rfl rfl

/-! ## C3: IFERROR never yields `none` -/

/-- C3: for every formula of the shape `=IFERROR(<inner>, "")` and every
store, evaluation equals the inner INDEX/MATCH resolution with `none`
replaced by the empty string — so it returns the inner value when the inner
expression resolves, the empty string when it fails, and never `.ok none`.
(When the inner expression raises — the C1 divisor-zero bug — IFERROR
propagates the exception; it still does not return `none`.) -/
theorem c3_iferror_never_none (store : Store) (formula cur inner : String)
    (h1 : strStarts formula "=" = true)
    (h2 : iferrorInner formula = some inner) :
    resolve_formula store formula cur =
      (resolve_index_match store (strLen (normF formula) + 1) inner cur).map
        (fun v => some (v.getD (.str ""))) ∧
    resolve_formula store formula cur ≠ .ok none := by
  obtain ⟨caps, hcaps, hin⟩ := Option.map_eq_some'.mp h2
  have hpar : '(' ∈ (normF formula).data := paren_of_pIfError hcaps
  have hdir : rmatch pDirect (normF formula) = none := pDirect_none_of_paren hpar
  have hmain : resolve_formula store formula cur =
      (resolve_index_match store (strLen (normF formula) + 1) inner cur).map
        (fun v => some (v.getD (.str ""))) := by
    unfold resolve_formula
    rw [h1]
    simp only [Bool.not_true, Bool.false_eq_true, if_false]
    rw [hdir]
    simp only [Option.isSome_none, Bool.false_eq_true, if_false]
    rw [hcaps]
    dsimp only
    rw [hin]
  refine ⟨hmain, ?_⟩
  rw [hmain]
  cases hres : resolve_index_match store (strLen (normF formula) + 1) inner cur with
  | error e => simp [Except.map]
  | ok v => simp [Except.map]

/-- C3 witness: an IFERROR formula whose inner INDEX/MATCH cannot resolve
(empty store) evaluates to `""`, not `none`. -/
theorem c3_iferror_never_none_witness :
    resolve_formula (fun _ => none)
      "=IFERROR(INDEX('D'!A1:A2,MATCH(1,'D'!A1:A2,0)), \"\")" "S" ≠ .ok none :=
  (c3_iferror_never_none (fun _ => none)
    "=IFERROR(INDEX('D'!A1:A2,MATCH(1,'D'!A1:A2,0)), \"\")" "S"
    "INDEX('D'!A1:A2,MATCH(1,'D'!A1:A2,0))" rfl rfl).2

end CreditPaper

namespace CreditPaper

/-! ## C8: the CellStore only grows during a resolution run -/

/-- Invariant of a single pass: assuming pairwise-distinct outstanding keys
none of which is bound, the pass (1) preserves every existing binding,
(2) binds only keys of outstanding cells, and (3) leaves a remaining list
that again satisfies the invariant. -/
theorem resolve_pass_inv :
    ∀ (cells : List Cell) (s : Store),
      (cells.map cellKey).Nodup →
      (∀ c ∈ cells, s (cellKey c) = none) →
      (∀ k v, s k = some v → passStore (resolve_pass cells s) k = some v) ∧
      (∀ k, s k = none →
        passStore (resolve_pass cells s) k = none ∨ ∃ c ∈ cells, cellKey c = k) ∧
      (∀ rem s' cnt, resolve_pass cells s = .ok rem s' cnt →
        rem ⊆ cells ∧ (rem.map cellKey).Nodup ∧ ∀ c ∈ rem, s' (cellKey c) = none) := by
  intro cells
  induction cells with
  | nil =>
    intro s _ _
    refine ⟨fun k v hk => hk, fun k hk => Or.inl hk, ?_⟩
    intro rem s' cnt h
    cases h
    exact ⟨by simp, by simp, by simp⟩
  | cons c rest ih =>
    intro s hnod hnone
    have hkey : s (cellKey c) = none := hnone c (List.mem_cons_self c rest)
    have hnotmem : cellKey c ∉ rest.map cellKey := (List.nodup_cons.mp hnod).1
    have hnodrest : (rest.map cellKey).Nodup := (List.nodup_cons.mp hnod).2
    cases heval : resolve_formula s c.2.2 c.1 with
    | error e =>
      have hrp : resolve_pass (c :: rest) s = .err e s := by
        rw [resolve_pass, heval]
      rw [hrp]
      refine ⟨fun k v hk => hk, fun k hk => Or.inl hk, ?_⟩
      intro rem s' cnt h
      cases h
    | ok ov =>
      cases ov with
      | none =>
        obtain ⟨ih1, ih2, ih3⟩ := ih s hnodrest
          (fun c' hc' => hnone c' (List.mem_cons_of_mem c hc'))
        cases hrec : resolve_pass rest s with
        | err e s' =>
          have hrp : resolve_pass (c :: rest) s = .err e s' := by
            rw [resolve_pass, heval, hrec]
          rw [hrp]
          refine ⟨?_, ?_, ?_⟩
          · intro k v hk
            have := ih1 k v hk
            rw [hrec] at this
            exact this
          · intro k hk
            rcases ih2 k hk with h | ⟨c', hc', hkc⟩
            · rw [hrec] at h
              exact Or.inl h
            · exact Or.inr ⟨c', List.mem_cons_of_mem c hc', hkc⟩
          · intro rem s'' cnt h
            cases h
        | ok rem s' cnt =>
          have hrp : resolve_pass (c :: rest) s = .ok (c :: rem) s' cnt := by
            rw [resolve_pass, heval, hrec]
          rw [hrp]
          obtain ⟨hsub, hnodrem, hnonerem⟩ := ih3 rem s' cnt hrec
          refine ⟨?_, ?_, ?_⟩
          · intro k v hk
            have := ih1 k v hk
            rw [hrec] at this
            exact this
          · intro k hk
            rcases ih2 k hk with h | ⟨c', hc', hkc⟩
            · rw [hrec] at h
              exact Or.inl h
            · exact Or.inr ⟨c', List.mem_cons_of_mem c hc', hkc⟩
          · intro rem' s'' cnt' h
            cases h
            refine ⟨?_, ?_, ?_⟩
            · intro x hx
              rcases List.mem_cons.mp hx with rfl | hx'
              · exact List.mem_cons_self x rest
              · exact List.mem_cons_of_mem c (hsub hx')
            · rw [List.map_cons]
              refine List.nodup_cons.mpr ⟨?_, hnodrem⟩
              intro hmem
              obtain ⟨c', hc', hkc⟩ := List.mem_map.mp hmem
              exact hnotmem (List.mem_map.mpr ⟨c', hsub hc', hkc⟩)
            · intro c' hc'
              rcases List.mem_cons.mp hc' with rfl | hc''
              · have hs' : passStore (resolve_pass rest s) (cellKey c') = none ∨
                    ∃ x ∈ rest, cellKey x = cellKey c' := ih2 (cellKey c') hkey
                rw [hrec] at hs'
                rcases hs' with h | ⟨x, hx, hkx⟩
                · exact h
                · exact absurd (List.mem_map.mpr ⟨x, hx, hkx⟩) hnotmem
              · exact hnonerem c' hc''
      | some v =>
        have hfresh : ∀ c' ∈ rest, (s.insert (cellKey c) v) (cellKey c') = none := by
          intro c' hc'
          have hne : cellKey c' ≠ cellKey c := by
            intro h
            exact hnotmem (List.mem_map.mpr ⟨c', hc', h⟩)
          rw [Store.insert, if_neg hne]
          exact hnone c' (List.mem_cons_of_mem c hc')
        obtain ⟨ih1, ih2, ih3⟩ := ih (s.insert (cellKey c) v) hnodrest hfresh
        cases hrec : resolve_pass rest (s.insert (cellKey c) v) with
        | err e s' =>
          have hrp : resolve_pass (c :: rest) s = .err e s' := by
            rw [resolve_pass, heval]
            dsimp only
            rw [hrec]
          rw [hrp]
          refine ⟨?_, ?_, ?_⟩
          · intro k v' hk
            have hne : k ≠ cellKey c := by
              intro h
              rw [h, hkey] at hk
              cases hk
            have hk1 : (s.insert (cellKey c) v) k = some v' := by
              rw [Store.insert, if_neg hne]
              exact hk
            have := ih1 k v' hk1
            rw [hrec] at this
            exact this
          · intro k hk
            by_cases hkc : k = cellKey c
            · exact Or.inr ⟨c, List.mem_cons_self c rest, hkc.symm⟩
            · have hk1 : (s.insert (cellKey c) v) k = none := by
                rw [Store.insert, if_neg hkc]
                exact hk
              rcases ih2 k hk1 with h | ⟨c', hc', hkc'⟩
              · rw [hrec] at h
                exact Or.inl h
              · exact Or.inr ⟨c', List.mem_cons_of_mem c hc', hkc'⟩
          · intro rem s'' cnt h
            cases h
        | ok rem s' cnt =>
          have hrp : resolve_pass (c :: rest) s = .ok rem s' (cnt + 1) := by
            rw [resolve_pass, heval]
            dsimp only
            rw [hrec]
          rw [hrp]
          obtain ⟨hsub, hnodrem, hnonerem⟩ := ih3 rem s' cnt hrec
          refine ⟨?_, ?_, ?_⟩
          · intro k v' hk
            have hne : k ≠ cellKey c := by
              intro h
              rw [h, hkey] at hk
              cases hk
            have hk1 : (s.insert (cellKey c) v) k = some v' := by
              rw [Store.insert, if_neg hne]
              exact hk
            have := ih1 k v' hk1
            rw [hrec] at this
            exact this
          · intro k hk
            by_cases hkc : k = cellKey c
            · exact Or.inr ⟨c, List.mem_cons_self c rest, hkc.symm⟩
            · have hk1 : (s.insert (cellKey c) v) k = none := by
                rw [Store.insert, if_neg hkc]
                exact hk
              rcases ih2 k hk1 with h | ⟨c', hc', hkc'⟩
              · rw [hrec] at h
                exact Or.inl h
              · exact Or.inr ⟨c', List.mem_cons_of_mem c hc', hkc'⟩
          · intro rem' s'' cnt' h
            cases h
            exact ⟨fun x hx => List.mem_cons_of_mem c (hsub hx), hnodrem, hnonerem⟩

/-- Across the whole multi-pass run (also at an abort), every binding present
in the store stays, unchanged. -/
theorem resolve_passes_mono :
    ∀ (n : Nat) (cells : List Cell) (s : Store),
      (cells.map cellKey).Nodup →
      (∀ c ∈ cells, s (cellKey c) = none) →
      ∀ k v, s k = some v → (resolve_passes n cells s).store k = some v := by
  intro n
  induction n with
  | zero => intro cells s _ _ k v hk; exact hk
  | succ n ih =>
    intro cells s hnod hnone k v hk
    obtain ⟨g1, g2, g3⟩ := resolve_pass_inv cells s hnod hnone
    cases hrp : resolve_pass cells s with
    | err e s' =>
      have hthis : resolve_passes (n + 1) cells s = .err e s' := by
        rw [resolve_passes, hrp]
      rw [hthis]
      have := g1 k v hk
      rw [hrp] at this
      exact this
    | ok rem s' cnt =>
      obtain ⟨hsub, hnod', hnone'⟩ := g3 rem s' cnt hrp
      have hgrow : s' k = some v := by
        have := g1 k v hk
        rw [hrp] at this
        exact this
      by_cases hcnt : cnt = 0
      · have hthis : resolve_passes (n + 1) cells s = .ok rem s' := by
          rw [resolve_passes, hrp]
          simp [hcnt]
        rw [hthis]
        exact hgrow
      · have hthis : resolve_passes (n + 1) cells s = resolve_passes n rem s' := by
          rw [resolve_passes, hrp]
          simp [hcnt]
        rw [hthis]
        exact ih rem s' hnod' hnone' k v hgrow

/-- C8: within one resolution run the CellStore only grows.  The outstanding
list is collected skipping every formula cell whose key is already seeded
(first conjunct), and under distinct cell keys no pass — nor an aborting
pass — ever removes or rebinds an existing `(sheet, coordinate)` binding
(second conjunct; since it holds for every starting store and outstanding
list satisfying the invariant, it applies from any intermediate pass state as
well, so a key bound during the run is never rebound later). -/
theorem c8_store_monotone (n : Nat) (allCells : List Cell) (s : Store)
    (hnod : (allCells.map cellKey).Nodup) :
    (∀ c ∈ collect_outstanding allCells s, s (cellKey c) = none) ∧
    (∀ k v, s k = some v →
      (resolve_passes n (collect_outstanding allCells s) s).store k = some v) := by
  have houts : ∀ c ∈ collect_outstanding allCells s, s (cellKey c) = none := by
    intro c hc
    have := List.of_mem_filter hc
    exact Option.isNone_iff_eq_none.mp this
  refine ⟨houts, ?_⟩
  have hnod' : ((collect_outstanding allCells s).map cellKey).Nodup :=
    hnod.sublist (List.Sublist.map cellKey (List.filter_sublist allCells))
  exact resolve_passes_mono n _ s hnod' houts

/-- C8 witness: a seeded literal binding survives a three-pass run that
resolves a dependent formula cell. -/
theorem c8_store_monotone_witness :
    (resolve_passes 3
      (collect_outstanding [("S", "B1", "=A1")]
        (fun k => if k = ("S", "A1") then some (.int 1) else none))
      (fun k => if k = ("S", "A1") then some (.int 1) else none)).store
      ("S", "A1") = some (.int 1) :=
  (c8_store_monotone 3 [("S", "B1", "=A1")]
    (fun k => if k = ("S", "A1") then some (.int 1) else none)
    (by simp)).2 ("S", "A1") (.int 1) rfl

/-! ## C9: the workbook writer -/

/-- C9: the output workbook has exactly the source's sheet names in order;
every cell appears at the same `(row, column)`; a formula cell (string value
starting with `=`) is written as the CellStore value at its coordinate —
absent entry meaning an empty cell — and every other cell's value is copied
unchanged, so no cell's original formula text is emitted as such. -/
theorem c9_writer_spec (wb : List Sheet) (store : Store) :
    ((write_workbook wb store).map Prod.fst = wb.map Prod.fst) ∧
    (∀ i name cells, wb.get? i = some (name, cells) →
      ∃ cells', (write_workbook wb store).get? i = some (name, cells') ∧
        cells'.length = cells.length ∧
        ∀ j row col v, cells.get? j = some (row, col, v) →
          cells'.get? j = some (row, col,
            if isFormulaVal v then store (name, coordStr col row) else v)) := by
  constructor
  · rw [write_workbook, List.map_map]
    rfl
  · intro i name cells hget
    refine ⟨cells.map (fun c => (c.1, c.2.1,
      if isFormulaVal c.2.2 then store (name, coordStr c.2.1 c.1) else c.2.2)), ?_, ?_, ?_⟩
    · rw [write_workbook, List.get?_map, hget]
      rfl
    · simp
    · intro j row col v hj
      rw [List.get?_map, hj]
      rfl

/-- C9 witness: one sheet with a literal at `(1,1)` and formula cell `=A1` at
`(1,2)` (coordinate `B1`); the writer keeps the sheet name, copies the
literal, and replaces the formula cell by the store value at `B1`. -/
theorem c9_writer_spec_witness :
    ∃ cells', (write_workbook [("S", [(1, 1, some (.int 5)), (1, 2, some (.str "=A1"))])]
      (fun k => if k = ("S", "B1") then some (.int 7) else none)).get? 0 =
        some ("S", cells') ∧
      cells'.get? 0 = some (1, 1, some (.int 5)) ∧
      cells'.get? 1 = some (1, 2, some (.int 7)) := by
  obtain ⟨cells', h1, _, h3⟩ := (c9_writer_spec
    [("S", [(1, 1, some (.int 5)), (1, 2, some (.str "=A1"))])]
    (fun k => if k = ("S", "B1") then some (.int 7) else none)).2 0 "S"
    [(1, 1, some (.int 5)), (1, 2, some (.str "=A1"))] rfl
  refine ⟨cells', h1, ?_, ?_⟩
  · have h := h3 0 1 1 (some (.int 5)) rfl
    rw [h]
    rfl
  · have h := h3 1 1 2 (some (.str "=A1")) rfl
    rw [h]
    rfl

end CreditPaper

namespace CreditPaper

/-! ## C10: INDEX/MATCH requires single-quoted sheet qualifiers -/

/-- A group-free pattern leaves the capture environment unchanged. -/
theorem sem_groupfree {p : Pat} {s r : List Char} {cs cs' : Caps}
    (h : Sem p s r cs cs') : patGroupFree p = true → cs' = cs := by
  induction h with
  | lit l r cs => intro _; rfl
  | litCI l t r cs hf => intro _; rfl
  | cls p c r cs hc => intro _; rfl
  | seq ha hb iha ihb =>
    intro hg
    rw [patGroupFree, Bool.and_eq_true] at hg
    rw [ihb hg.2, iha hg.1]
  | altL b h ih => intro hg; rw [patGroupFree, Bool.and_eq_true] at hg; exact ih hg.1
  | altR a h ih => intro hg; rw [patGroupFree, Bool.and_eq_true] at hg; exact ih hg.2
  | optS h ih => intro hg; exact ih hg
  | optN a s cs => intro _; rfl
  | starG p t r cs hall => intro _; rfl
  | plusG p t r cs hne hall => intro _; rfl
  | plusL p t r cs hne hall => intro _; rfl
  | group n t r h ih => intro hg; exact absurd hg (by simp [patGroupFree])
  | eps s cs => intro _; rfl
  | eos cs => intro _; rfl

/-- Inverting a successful INDEX/MATCH regex match: group 1 (the INDEX
range) and group 3 (the row MATCH range) are always captured and carry a
single-quoted sheet qualifier; group 5 (the column MATCH range), when
captured, does as well. -/
theorem pIndexMatch_caps {expr : String} {caps : Caps}
    (h : rmatch pIndexMatch expr = some caps) :
    (∃ g1, caps 1 = some g1 ∧ QuotedL g1) ∧
    (∃ g3, caps 3 = some g3 ∧ QuotedL g3) ∧
    (∀ g5, caps 5 = some g5 → QuotedL g5) := by
  obtain ⟨r, hsem⟩ := rmatch_sound h
  simp only [pIndexMatch, seqs, List.foldr, litS, litCIS, ws0] at hsem
  obtain ⟨s01, k01, hp01, hsem⟩ := sem_seq_inv hsem
  obtain ⟨_, _, _, hk01⟩ := sem_litCI_inv hp01
  obtain ⟨s02, k02, hp02, hsem⟩ := sem_seq_inv hsem
  obtain ⟨_, _, _, hk02⟩ := sem_starG_inv hp02
  obtain ⟨s03, k03, hp03, hsem⟩ := sem_seq_inv hsem
  obtain ⟨t1, k03i, _, hin1, hk03⟩ := sem_group_inv hp03
  have hq1 : QuotedL t1 := quoted_of_sem_pQRange hin1
  have hk03i : k03i = k02 := sem_groupfree hin1 (by decide)
  obtain ⟨s04, k04, hp04, hsem⟩ := sem_seq_inv hsem
  obtain ⟨_, _, _, hk04⟩ := sem_starG_inv hp04
  obtain ⟨s05, k05, hp05, hsem⟩ := sem_seq_inv hsem
  obtain ⟨_, hk05⟩ := sem_lit_inv hp05
  obtain ⟨s06, k06, hp06, hsem⟩ := sem_seq_inv hsem
  obtain ⟨_, _, _, hk06⟩ := sem_starG_inv hp06
  obtain ⟨s07, k07, hp07, hsem⟩ := sem_seq_inv hsem
  obtain ⟨_, _, _, hk07⟩ := sem_litCI_inv hp07
  obtain ⟨s08, k08, hp08, hsem⟩ := sem_seq_inv hsem
  obtain ⟨t2, k08i, _, hin2, hk08⟩ := sem_group_inv hp08
  have hk08i : k08i = k07 := sem_groupfree hin2 (by decide)
  obtain ⟨s09, k09, hp09, hsem⟩ := sem_seq_inv hsem
  obtain ⟨_, hk09⟩ := sem_lit_inv hp09
  obtain ⟨s10, k10, hp10, hsem⟩ := sem_seq_inv hsem
  obtain ⟨_, _, _, hk10⟩ := sem_starG_inv hp10
  obtain ⟨s11, k11, hp11, hsem⟩ := sem_seq_inv hsem
  obtain ⟨t3, k11i, _, hin3, hk11⟩ := sem_group_inv hp11
  have hq3 : QuotedL t3 := quoted_of_sem_pQRange hin3
  have hk11i : k11i = k10 := sem_groupfree hin3 (by decide)
  obtain ⟨s12, k12, hp12, hsem⟩ := sem_seq_inv hsem
  obtain ⟨_, _, _, hk12⟩ := sem_starG_inv hp12
  obtain ⟨s13, k13, hp13, hsem⟩ := sem_seq_inv hsem
  obtain ⟨_, hk13⟩ := sem_lit_inv hp13
  obtain ⟨s14, k14, hp14, hsem⟩ := sem_seq_inv hsem
  obtain ⟨_, _, _, hk14⟩ := sem_starG_inv hp14
  obtain ⟨s15, k15, hp15, hsem⟩ := sem_seq_inv hsem
  obtain ⟨_, hk15⟩ := sem_lit_inv hp15
  obtain ⟨s16, k16, hp16, hsem⟩ := sem_seq_inv hsem
  obtain ⟨_, _, _, hk16⟩ := sem_starG_inv hp16
  obtain ⟨s17, k17, hp17, hsem⟩ := sem_seq_inv hsem
  obtain ⟨_, hk17⟩ := sem_lit_inv hp17
  obtain ⟨s18, k18, hp18, hsem⟩ := sem_seq_inv hsem
  obtain ⟨s19, k19, hp19, hsem⟩ := sem_seq_inv hsem
  obtain ⟨_, _, _, hk19⟩ := sem_starG_inv hp19
  obtain ⟨s20, k20, hp20, hsem⟩ := sem_seq_inv hsem
  obtain ⟨_, hk20⟩ := sem_lit_inv hp20
  obtain ⟨_, hkfin⟩ := sem_eps_inv hsem
  have hcaps : caps = k18 := by rw [hkfin, hk20, hk19]
  have hk17e : k17 = ((Caps.empty.set 1 t1).set 2 t2).set 3 t3 := by
    rw [hk17, hk16, hk15, hk14, hk13, hk12, hk11, hk11i, hk10, hk09, hk08, hk08i,
      hk07, hk06, hk05, hk04, hk03, hk03i, hk02, hk01]
  rcases sem_opt_inv hp18 with hsm | ⟨_, hk18⟩
  · simp only [pSecondMatch, seqs, List.foldr, litS, litCIS, ws0] at hsm
    obtain ⟨u1, j1, hq01, hsm⟩ := sem_seq_inv hsm
    obtain ⟨_, _, _, hj1⟩ := sem_starG_inv hq01
    obtain ⟨u2, j2, hq02, hsm⟩ := sem_seq_inv hsm
    obtain ⟨_, hj2⟩ := sem_lit_inv hq02
    obtain ⟨u3, j3, hq03, hsm⟩ := sem_seq_inv hsm
    obtain ⟨_, _, _, hj3⟩ := sem_starG_inv hq03
    obtain ⟨u4, j4, hq04, hsm⟩ := sem_seq_inv hsm
    obtain ⟨_, _, _, hj4⟩ := sem_litCI_inv hq04
    obtain ⟨u5, j5, hq05, hsm⟩ := sem_seq_inv hsm
    obtain ⟨t4, j5i, _, hin4, hj5⟩ := sem_group_inv hq05
    have hj5i : j5i = j4 := sem_groupfree hin4 (by decide)
    obtain ⟨u6, j6, hq06, hsm⟩ := sem_seq_inv hsm
    obtain ⟨_, hj6⟩ := sem_lit_inv hq06
    obtain ⟨u7, j7, hq07, hsm⟩ := sem_seq_inv hsm
    obtain ⟨_, _, _, hj7⟩ := sem_starG_inv hq07
    obtain ⟨u8, j8, hq08, hsm⟩ := sem_seq_inv hsm
    obtain ⟨t5, j8i, _, hin5, hj8⟩ := sem_group_inv hq08
    have hq5 : QuotedL t5 := quoted_of_sem_pQRange hin5
    have hj8i : j8i = j7 := sem_groupfree hin5 (by decide)
    obtain ⟨u9, j9, hq09, hsm⟩ := sem_seq_inv hsm
    obtain ⟨_, _, _, hj9⟩ := sem_starG_inv hq09
    obtain ⟨u10, j10, hq10, hsm⟩ := sem_seq_inv hsm
    obtain ⟨_, hj10⟩ := sem_lit_inv hq10
    obtain ⟨u11, j11, hq11, hsm⟩ := sem_seq_inv hsm
    obtain ⟨_, _, _, hj11⟩ := sem_starG_inv hq11
    obtain ⟨u12, j12, hq12, hsm⟩ := sem_seq_inv hsm
    obtain ⟨_, hj12⟩ := sem_lit_inv hq12
    obtain ⟨u13, j13, hq13, hsm⟩ := sem_seq_inv hsm
    obtain ⟨_, _, _, hj13⟩ := sem_starG_inv hq13
    obtain ⟨u14, j14, hq14, hsm⟩ := sem_seq_inv hsm
    obtain ⟨_, hj14⟩ := sem_lit_inv hq14
    obtain ⟨_, hj15⟩ := sem_eps_inv hsm
    have hk18e : k18 = (k17.set 4 t4).set 5 t5 := by
      rw [hj15, hj14, hj13, hj12, hj11, hj10, hj9, hj8, hj8i, hj7, hj6, hj5, hj5i,
        hj4, hj3, hj2, hj1]
    refine ⟨⟨t1, ?_, hq1⟩, ⟨t3, ?_, hq3⟩, ?_⟩
    · rw [hcaps, hk18e, hk17e]
      simp [Caps.set]
    · rw [hcaps, hk18e, hk17e]
      simp [Caps.set]
    · intro g5 h5
      rw [hcaps, hk18e] at h5
      simp [Caps.set] at h5
      exact h5 ▸ hq5
  · refine ⟨⟨t1, ?_, hq1⟩, ⟨t3, ?_, hq3⟩, ?_⟩
    · rw [hcaps, hk18, hk17e]
      simp [Caps.set]
    · rw [hcaps, hk18, hk17e]
      simp [Caps.set]
    · intro g5 h5
      rw [hcaps, hk18, hk17e] at h5
      simp [Caps.set, Caps.empty] at h5

/-- C10: for a formula of the INDEX/MATCH shape (bare or inside IFERROR),
evaluation can yield a value only when the INDEX range and every MATCH range
are written with a single-quoted sheet qualifier (`'Sheet'!A1:B2`): (1) any
successful match of the recognizing regex captures only quoted-qualified
ranges; (2) a value out of `_resolve_index_match` requires such a match;
(3)–(5) with an unqualified range (`B2:I7`) or an unquoted sheet name
(`Sheet1!B2:I7`) the shape is not recognized, and the result is `none` (or
`""` inside IFERROR), regardless of the CellStore. -/
theorem c10_quoted_ranges_required :
    (∀ (expr : String) (caps : Caps), rmatch pIndexMatch expr = some caps →
      (∃ g1, caps 1 = some g1 ∧ QuotedL g1) ∧
      (∃ g3, caps 3 = some g3 ∧ QuotedL g3) ∧
      (∀ g5, caps 5 = some g5 → QuotedL g5)) ∧
    (∀ (store : Store) (fuel : Nat) (expr cur : String) (v : Val),
      resolve_index_match store fuel expr cur = .ok (some v) →
      ∃ caps, rmatch pIndexMatch
        (match rmatch pDiv expr with
         | some c => pyStrip (capGet c 1)
         | none => expr) = some caps) ∧
    (∀ (store : Store) (cur : String),
      resolve_formula store "=INDEX(B2:I7,MATCH(1,A1:A3,0))" cur = .ok none) ∧
    (∀ (store : Store) (cur : String),
      resolve_formula store "=INDEX(Sheet1!B2:I7,MATCH(1,'D'!A1:A3,0))" cur = .ok none) ∧
    (∀ (store : Store) (cur : String),
      resolve_formula store "=IFERROR(INDEX(B2:I7,MATCH(1,A1:A3,0)), \"\")" cur =
        .ok (some (.str ""))) := by
  refine ⟨fun expr caps h => pIndexMatch_caps h, ?_, fun _ _ => rfl, fun _ _ => rfl,
    fun _ _ => rfl⟩
  intro store fuel expr cur v h
  unfold resolve_index_match at h
  cases hdiv : rmatch pDiv expr with
  | none =>
    rw [hdiv] at h
    dsimp only at h ⊢
    cases hidx : rmatch pIndexMatch expr with
    | none =>
      rw [hidx] at h
      exact absurd h (by simp)
    | some caps => exact ⟨caps, by simp [hidx]⟩
  | some c =>
    rw [hdiv] at h
    dsimp only at h ⊢
    cases hidx : rmatch pIndexMatch (pyStrip (capGet c 1)) with
    | none =>
      rw [hidx] at h
      exact absurd h (by simp)
    | some caps => exact ⟨caps, by simp [hidx]⟩

/-- C10 witness: a fully quoted two-range INDEX/MATCH formula that does yield
a value, so its recognizer match exists (with `A1 = 1` on sheet `S`). -/
theorem c10_quoted_ranges_required_witness :
    ∃ caps, rmatch pIndexMatch
      (match rmatch pDiv "INDEX('S'!A1:A2,MATCH(1,'S'!A1:A2,0))" with
       | some c => pyStrip (capGet c 1)
       | none => "INDEX('S'!A1:A2,MATCH(1,'S'!A1:A2,0))") = some caps :=
  c10_quoted_ranges_required.2.1
    (fun k => if k = ("S", "A1") then some (.int 1) else none) 5
    "INDEX('S'!A1:A2,MATCH(1,'S'!A1:A2,0))" "S" (.int 1) rfl

end CreditPaper
